import Mathlib

/-!
# Verification of the deno-vim-regexp pattern compiler

Shallow embedding of the repository's two subsystems:

* the character-class compiler (`charclass.ts`, `patternToCharClass`), which
  turns Vim option strings such as `isfname` into host character classes, and
* the regex transpiler (`regexp.ts`, `parseVimPattern`), which turns a Vim
  pattern plus options into a host source string and flag set.

Strings are modelled as `List Char` (the TypeScript code spreads the source
into code points with `[...source]`). The intermediate code-point set of the
character-class compiler is a `Finset ℕ`; JavaScript `Set` insertion order is
irrelevant because the emitted class sorts the set.
-/

deriving instance DecidableEq for Except

namespace VimRe

/-! ## Character-class compiler (charclass.ts) -/

/-- `PatternType` from charclass.ts. -/
inductive PatternType
  | isfname
  | isident
  | iskeyword
  | isprint
deriving Repr, DecidableEq

/-- `FORCE_CHAR_PATTERNS` from charclass.ts: forced overriding patterns
applied after the user's entries.  `isident` and `iskeyword` are the empty
string, which the code treats as "no forcing" (`if (forcePattern)`). -/
def FORCE_CHAR_PATTERNS : PatternType → String
  | .isfname => "^160-255"
  | .isident => ""
  | .iskeyword => ""
  | .isprint => "32-126,^160-255"

/-- `UNICODE_CHAR_CLASSES` from charclass.ts: the Unicode tail appended when
the `unicode` option is enabled. -/
def UNICODE_CHAR_CLASSES : PatternType → String
  | .isfname => "[\\xa0-\\u\x7b10ffff\x7d]"
  | .isident => ""
  | .iskeyword => "[[\\p\x7bL\x7d\\p\x7bN\x7d\\p\x7bEmoji\x7d]--[\\x00-\\xff]]"
  | .isprint => "[\\xa0-\\u\x7b10ffff\x7d]"

/-- `range(start, end)` from charclass.ts: the inclusive range as a list. -/
def rangeList (a b : ℕ) : List ℕ :=
  List.range' a (b + 1 - a)

/-- `ASCII_WORD_CHARS` from charclass.ts: the code points added by `@`. -/
def asciiWordChars : List ℕ :=
  rangeList 0x41 0x5a ++ rangeList 0x61 0x7a ++ [0xb5] ++
    rangeList 0xc0 0xd6 ++ rangeList 0xd8 0xf6 ++ rangeList 0xf8 0xff

/-- `Set.add`: append the code if absent (a JavaScript `Set` keeps insertion
order and holds no duplicates). -/
def setAdd (x : ℕ) (s : List ℕ) : List ℕ :=
  if x ∈ s then s else s ++ [x]

/-- `Set.delete`: remove the code (at most one occurrence exists). -/
def setDel (x : ℕ) (s : List ℕ) : List ℕ :=
  s.filter fun y => y ≠ x

/-- `setChars` from charclass.ts: apply every code of the list to the set,
adding or (for an inverse entry) deleting. -/
def setChars (chars : List ℕ) (inverse : Bool) (s : List ℕ) : List ℕ :=
  chars.foldl (fun a c => if inverse then setDel c a else setAdd c a) s

/-- Error kinds of `CharClassSyntaxError` as thrown by `patternToCharClass`. -/
inductive CCKind
  | invalidKeyword
  | invalidCodeRange
deriving Repr, DecidableEq

/-- A `CharClassSyntaxError`: kind of message, the `source` option string the
error refers to, and the `index` of the offending block in it. -/
structure CCError where
  kind : CCKind
  source : List Char
  index : ℕ
deriving Repr, DecidableEq

/-- One block matched by the option-string scanner `reBlock`
(`(?<inverse>\^)?(?<start>\d+|[^\d^]|(?<=\^)\^|\^$)(?:-(?<end>\d+|[^\d]))?(?:, *|$)`):
the optional `^` prefix, the matched `start` text and the optional `end` text. -/
structure CCEntry where
  inverse : Bool
  start : List Char
  endPart : Option (List Char)
deriving Repr, DecidableEq

/-- Line terminators, which the regexp metacharacter `.` does not match. -/
def lineTerm (c : Char) : Bool :=
  c == '\n' || c == '\r' || c.toNat == 0x2028 || c.toNat == 0x2029

/-- First `some` produced by `f` over a list of candidates, in order: the
deterministic rendering of regexp alternation / backtracking order. -/
def firstSome {α β : Type} : List α → (α → Option β) → Option β
  | [], _ => none
  | a :: as, f =>
    match f a with
    | some b => some b
    | none => firstSome as f

/-- Candidate matches of the greedy `\d+`, longest first (backtracking order):
pairs of (matched digits, rest). -/
def digitPrefixes (l : List Char) : List (List Char × List Char) :=
  let run := l.takeWhile Char.isDigit
  (List.range run.length).map fun i =>
    let k := run.length - i
    (l.take k, l.drop k)

/-- The block separator `(?:, *|$)`: a comma with trailing spaces trimmed, or
end of input.  Returns the number of characters consumed and the rest. -/
def sepCheck : List Char → Option (ℕ × List Char)
  | [] => some (0, [])
  | c :: r =>
    if c = ',' then
      let sp := r.takeWhile (· = ' ')
      some (1 + sp.length, r.drop sp.length)
    else none

/-- Candidates for the `end` group `\d+|[^\d]`, in backtracking order. -/
def endCandidates : List Char → List (List Char × List Char)
  | [] => []
  | c :: r => if c.isDigit then digitPrefixes (c :: r) else [([c], r)]

/-- Candidates for the `start` group `\d+|[^\d^]|(?<=\^)\^|\^$`, in
backtracking order.  `prev` is the character before the current scan position
(for the look-behind `(?<=\^)`). -/
def startCandidates (prev : Option Char) : List Char → List (List Char × List Char)
  | [] => []
  | c :: r =>
    if c.isDigit then digitPrefixes (c :: r)
    else if c ≠ '^' then [([c], r)]
    else
      (if prev = some '^' then [([c], r)] else []) ++
        (if r = [] then [([c], r)] else [])

/-- The optional range suffix and the separator,
`(?:-(?<end>\d+|[^\d]))?(?:, *|$)`: greedy, so the range variant is tried
before the bare separator.  Returns the `end` text (if any) and the number of
characters consumed. -/
def rangeSep (l : List Char) : Option (Option (List Char) × ℕ) :=
  let withRange : Option (Option (List Char) × ℕ) :=
    match l with
    | c :: r =>
      if c = '-' then
        firstSome (endCandidates r) fun p =>
          (sepCheck p.2).map fun q => (some p.1, 1 + p.1.length + q.1)
      else none
    | [] => none
  match withRange with
  | some v => some v
  | none => (sepCheck l).map fun q => (none, q.1)

/-- The first (non-junk) alternative of `reBlock` without the `^` prefix:
start, optional range, separator.  Returns the entry and characters consumed. -/
def alt1At (prev : Option Char) (l : List Char) : Option (CCEntry × ℕ) :=
  firstSome (startCandidates prev l) fun p =>
    (rangeSep p.2).map fun q =>
      ({ inverse := false, start := p.1, endPart := q.1 }, p.1.length + q.2)

/-- One sticky match of `reBlock`'s first alternative at the current position:
the greedy `(?<inverse>\^)?` is tried with the `^` consumed first, falling
back to no inverse prefix. -/
def scanOne (prev : Option Char) (l : List Char) : Option (CCEntry × ℕ) :=
  match l with
  | '^' :: r =>
    match alt1At (some '^') r with
    | some (e, n) => some ({ e with inverse := true }, n + 1)
    | none => alt1At prev l
  | _ => alt1At prev l

/-- `s.match(/^\d+$/)`: nonempty and all decimal digits. -/
def isDigits (s : List Char) : Bool :=
  !s.isEmpty && s.all Char.isDigit

/-- Decimal value of a digit string (`parseInt(p, 10)`). -/
def decimalVal (s : List Char) : ℕ :=
  s.foldl (fun a c => 10 * a + (c.toNat - 48)) 0

/-- Interpretation of a `start`/`end` text: decimal number if all digits,
otherwise the code of its first character (`p.charCodeAt(0)`). -/
def interpCode (s : List Char) : ℕ :=
  if isDigits s then decimalVal s
  else
    match s with
    | [] => 0
    | c :: _ => c.toNat

/-- The code points denoted by an entry, or `none` when the range check
`1 <= rs && rs <= 255 && 1 <= re && re <= 255 && rs <= re` fails.  A lone `@`
bypasses the check and denotes `ASCII_WORD_CHARS`. -/
def entryChars (e : CCEntry) : Option (List ℕ) :=
  if e.start = ['@'] ∧ e.endPart = none then some asciiWordChars
  else
    if 1 ≤ interpCode e.start ∧ interpCode e.start ≤ 255 ∧
        1 ≤ interpCode (e.endPart.getD e.start) ∧
        interpCode (e.endPart.getD e.start) ≤ 255 ∧
        interpCode e.start ≤ interpCode (e.endPart.getD e.start) then
      some (rangeList (interpCode e.start) (interpCode (e.endPart.getD e.start)))
    else none

/-- Apply one entry's codes to the set. -/
def applyEntry (e : CCEntry) (cs : List ℕ) (s : List ℕ) : List ℕ :=
  setChars cs e.inverse s

/-- The fused `parse` loop of `patternToCharClass`: scan blocks left to right,
validating and applying each one to the accumulated set.  A position where
`reBlock` cannot match at all (the rest begins with a line terminator, which
the junk alternative `(.+)` cannot match) silently ends the scan, mirroring
`matchAll` with a sticky regexp.  `src` is the string whose parse this is
(carried into errors), `pos` the current index in it, `prev` the previous
character (for the look-behind). -/
def parseCC (src : List Char) :
    ℕ → List Char → ℕ → Option Char → List ℕ → Except CCError (List ℕ)
  | 0, _, _, _, s => .ok s
  | _ + 1, [], _, _, s => .ok s
  | fuel + 1, c :: l, pos, prev, s =>
    match scanOne prev (c :: l) with
    | none =>
      if lineTerm c then .ok s
      else .error ⟨.invalidKeyword, src, pos⟩
    | some (e, n) =>
      match entryChars e with
      | none => .error ⟨.invalidCodeRange, src, pos⟩
      | some cs =>
        parseCC src fuel ((c :: l).drop n) (pos + n)
          ((c :: l).take n).getLast? (applyEntry e cs s)

/-- Phase-split reference scanner: tokenize only, collecting the entries with
their start positions and, if the scan ends at a junk block, its position. -/
def scanCC : ℕ → List Char → ℕ → Option Char → List (ℕ × CCEntry) × Option ℕ
  | 0, _, _, _ => ([], none)
  | _ + 1, [], _, _ => ([], none)
  | fuel + 1, c :: l, pos, prev =>
    match scanOne prev (c :: l) with
    | none => ([], if lineTerm c then none else some pos)
    | some (e, n) =>
      let r := scanCC fuel ((c :: l).drop n) (pos + n) ((c :: l).take n).getLast?
      ((pos, e) :: r.1, r.2)

/-- Position of the first scanned entry whose range check fails. -/
def firstBadEntry : List (ℕ × CCEntry) → Option ℕ
  | [] => none
  | (p, e) :: es => if (entryChars e).isNone then some p else firstBadEntry es

/-- Apply a list of scanned entries to a set (reference semantics). -/
def foldEntries : List (ℕ × CCEntry) → List ℕ → List ℕ
  | [], s => s
  | (_, e) :: es, s => foldEntries es (applyEntry e ((entryChars e).getD []) s)

/-- The accumulated code-point set of `patternToCharClass`: user entries, then
the type's forcing pattern (skipped when falsy, i.e. empty), then the removal
of `0xa0`-`0xff` when `unicode` is disabled. -/
def computeCharSet (pattern : String) (type : Option PatternType) (unicode : Bool) :
    Except CCError (List ℕ) := do
  let s ← parseCC pattern.data (pattern.data.length + 1) pattern.data 0 none []
  let s ←
    match type with
    | none => pure s
    | some t =>
      let f := FORCE_CHAR_PATTERNS t
      if f.isEmpty then pure s
      else parseCC f.data (f.data.length + 1) f.data 0 none s
  pure (if unicode then s else setChars (rangeList 0xa0 0xff) true s)

/-- Lowercase hexadecimal digit. -/
def hexDigit (n : ℕ) : Char :=
  if n < 10 then Char.ofNat (48 + n) else Char.ofNat (87 + n % 16)

/-- A code as a two-digit `\xNN` escape
(`"\\x" + ("0" + c.toString(16)).slice(-2)`). -/
def hexByte (n : ℕ) : String :=
  ⟨['\\', 'x', hexDigit (n % 256 / 16), hexDigit (n % 16)]⟩

/-- Group a sorted strictly increasing list into maximal consecutive runs. -/
def runsAux (start cur : ℕ) : List ℕ → List (ℕ × ℕ)
  | [] => [(start, cur)]
  | y :: ys =>
    if y = cur + 1 then runsAux start y ys else (start, cur) :: runsAux y y ys

/-- Maximal consecutive runs of a sorted strictly increasing list. -/
def runs : List ℕ → List (ℕ × ℕ)
  | [] => []
  | x :: xs => runsAux x x xs

/-- Emission of one run: a single code, two adjacent codes, or `start-end`
for runs of length at least 3. -/
def runToken (p : ℕ × ℕ) : String :=
  if p.2 = p.1 then hexByte p.1
  else if p.2 = p.1 + 1 then hexByte p.1 ++ hexByte p.2
  else hexByte p.1 ++ "-" ++ hexByte p.2

/-- Sorted insertion (the building block of `toSorted((a, b) => a - b)`). -/
def insSorted (x : ℕ) : List ℕ → List ℕ
  | [] => [x]
  | y :: ys => if x ≤ y then x :: y :: ys else y :: insSorted x ys

/-- `toSorted((a, b) => a - b)`: the set sorted ascending (the accumulated
set never holds duplicates, so any comparison sort yields this list). -/
def sortNat (l : List ℕ) : List ℕ :=
  l.foldr insSorted []

/-- The sorted, range-compressed body of the emitted character class. -/
def classBody (s : List ℕ) : String :=
  String.join ((runs (sortNat s)).map runToken)

/-- `patternToCharClass` from charclass.ts: compile an option string to a host
character class, or fail with a `CharClassSyntaxError`. -/
def patternToCharClass (pattern : String) (type : Option PatternType) (unicode : Bool) :
    Except CCError String :=
  (computeCharSet pattern type unicode).map fun s =>
    if unicode then
      "[" ++ classBody s ++
        (match type with
          | some t => UNICODE_CHAR_CLASSES t
          | none => "") ++ "]"
    else "[" ++ classBody s ++ "]"

/-! ## Regex transpiler (regexp.ts, `parseVimPattern`) -/

/-- The options bundle `VimRegExpOptions` with the defaults merged in
(`DEFAULT_CHAR_PATTERNS` plus the constructor's defaults). -/
structure VimRegExpOptions where
  flags : String
  isfname : String
  isident : String
  iskeyword : String
  isprint : String
  magic : Bool
  ignorecase : Bool
  smartcase : Bool
  stringMatch : Bool
deriving Repr, DecidableEq

/-- The fully defaulted options bundle. -/
def defaultOptions : VimRegExpOptions where
  flags := ""
  isfname := "@,48-57,/,.,-,_,+,,,#,$,%,~,="
  isident := "@,48-57,_,192-255"
  iskeyword := "@,48-57,_,192-255"
  isprint := "@,161-255"
  magic := true
  ignorecase := false
  smartcase := false
  stringMatch := false

/-- The option string the given pattern type compiles. -/
def optString (opts : VimRegExpOptions) : PatternType → String
  | .isfname => opts.isfname
  | .isident => opts.isident
  | .iskeyword => opts.iskeyword
  | .isprint => opts.isprint

/-- Error kinds of `VimRegExpSyntaxError` / `UnsupportedSyntaxError` as
raised by `parseVimPattern`; the payload is the text interpolated into the
message (the offending atom or token), empty where the message has none. -/
inductive VKind
  | invalidFlags (flags : String)
  | nothingToRepeat (atom : String)
  | unmatchedParen
  | invalidKeyword (text : String)
  | invalidCharClass (atom : String)
  | unsupported (token : String)
  | charclass (e : CCError)
deriving Repr, DecidableEq

/-- A `VimRegExpSyntaxError`: kind and the index of the offending atom in the
Vim source (`atomIndex`); 0 for the flag check and for bubbled-up
`CharClassSyntaxError`s, which carry their own location. -/
structure VErr where
  kind : VKind
  index : ℕ
deriving Repr, DecidableEq

/-- The four magicness levels, ordered as in the source
(`[VERY_MAGIC, MAGIC, NOMAGIC, VERY_NOMAGIC] = [1, 2, 3, 4]`). -/
def VERY_MAGIC : ℕ := 1

/-- Magic level `magic` (2). -/
def MAGIC : ℕ := 2

/-- Magic level `nomagic` (3). -/
def NOMAGIC : ℕ := 3

/-- Magic level `very nomagic` (4). -/
def VERY_NOMAGIC : ℕ := 4

/-- `ESCAPE_CHARS` from regexp.ts. -/
def escapeChars : Char → Option String
  | 'e' => some "\\x1b"
  | 't' => some "\\t"
  | 'r' => some "\\r"
  | 'b' => some "\\x08"
  | 'n' => some "\\n"
  | _ => none

/-- `SINGLE_CHAR_CLASSES` from regexp.ts: (normal, with-line-feed) pairs. -/
def singleCharClasses : Char → Option (String × String)
  | 's' => some ("[ \\t]", "[ \\t\\n]")
  | 'S' => some ("[^ \\t\\n]", "[^ \\t]")
  | 'd' => some ("[0-9]", "[0-9\\n]")
  | 'D' => some ("[^0-9\\n]", "[^0-9]")
  | 'x' => some ("[0-9A-Fa-f]", "[0-9A-Fa-f\\n]")
  | 'X' => some ("[^0-9A-Fa-f\\n]", "[^0-9A-Fa-f]")
  | 'o' => some ("[0-7]", "[0-7\\n]")
  | 'O' => some ("[^0-7\\n]", "[^0-7]")
  | 'w' => some ("[0-9A-Za-z_]", "[0-9A-Za-z_\\n]")
  | 'W' => some ("[^0-9A-Za-z_\\n]", "[^0-9A-Za-z_]")
  | 'h' => some ("[A-Za-z_]", "[A-Za-z_\\n]")
  | 'H' => some ("[^A-Za-z_\\n]", "[^A-Za-z_]")
  | 'a' => some ("[A-Za-z]", "[A-Za-z\\n]")
  | 'A' => some ("[^A-Za-z\\n]", "[^A-Za-z]")
  | 'l' => some ("[[a-z]--[A-Z]]", "[a-z\\n]")
  | 'L' => some ("[^a-z\\n]", "[^a-z]")
  | 'u' => some ("[[A-Z]--[a-z]]", "[A-Z\\n]")
  | 'U' => some ("[^A-Z\\n]", "[^A-Z]")
  | _ => none

/-- `NAMED_CHAR_CLASSES` from regexp.ts; `none` values are the four classes
compiled from the corresponding option string. -/
def namedCharClasses : List (String × Option String) :=
  [("alnum", some "[0-9A-Za-z]"),
   ("alpha", some "[A-Za-z]"),
   ("backspace", some "\\x08"),
   ("blank", some "[ \\t]"),
   ("cntrl", some "[\\x00-\\x1f\\x7f]"),
   ("digit", some "[0-9]"),
   ("escape", some "\\x1b"),
   ("fname", none),
   ("graph", some "[!-~]"),
   ("ident", none),
   ("keyword", none),
   ("lower", some "\\p\x7bLl\x7d"),
   ("print", none),
   ("punct", some "[[!-~]--[0-9A-Za-z]]"),
   ("return", some "\\r"),
   ("space", some "[\\t-\\r ]"),
   ("tab", some "\\t"),
   ("upper", some "\\p\x7bLu\x7d"),
   ("xdigit", some "[0-9A-Fa-f]")]

/-- The pattern type belonging to a `none`-valued named class. -/
def typeOfNullClass (name : String) : PatternType :=
  if name = "fname" then .isfname
  else if name = "ident" then .isident
  else if name = "keyword" then .iskeyword
  else .isprint

/-- The left brace character (code 123). -/
def braceL : Char := Char.ofNat 123

/-- The right brace character (code 125). -/
def braceR : Char := Char.ofNat 125

/-- The backtick character (code 96). -/
def backtickChar : Char := Char.ofNat 96

/-- The apostrophe character (code 39). -/
def apostChar : Char := Char.ofNat 39

/-- `reUnicodeSetSpecialChars`: characters that must be `\xNN`-escaped inside
a `v`-mode collection. -/
def isUSetSpecial (c : Char) : Bool :=
  c ∈ ['-', '!', '#', '$', '%', '&', '(', ')', '*', '+', ',', '.', '/', ':',
       ';', '<', '=', '>', '?', '@', '[', ']', '^', backtickChar, braceL,
       '|', braceR, '~']

/-- Minimal lowercase hexadecimal digits of a number (`n.toString(16)`). -/
def hexStrGo : ℕ → ℕ → List Char → List Char
  | 0, _, acc => acc
  | f + 1, n, acc => if n = 0 then acc else hexStrGo f (n / 16) (hexDigit (n % 16) :: acc)

/-- `n.toString(16)`. -/
def hexStr (n : ℕ) : String :=
  if n = 0 then "0" else ⟨hexStrGo (n + 1) n []⟩

/-- Left-pad with zeros to the given width (`padStart(k, "0")`). -/
def padZeros (k : ℕ) (s : String) : String :=
  ⟨List.replicate (k - s.length) '0' ++ s.data⟩

/-- `toCharCode` from regexp.ts: emit a code point as `\xNN`, `\uNNNN` or
`\u{NNNNN}`, or the fallback above `0x10ffff`. -/
def toCharCode (n : ℕ) (fallback : String) : String :=
  if n ≤ 0xff then "\\x" ++ padZeros 2 (hexStr n)
  else if n ≤ 0xffff then "\\u" ++ padZeros 4 (hexStr n)
  else if n ≤ 0x10ffff then "\\u\x7b" ++ hexStr n ++ "\x7d"
  else fallback

/-- Octal digit test (`[0-7]`). -/
def isOctC (c : Char) : Bool := '0' ≤ c && c ≤ '7'

/-- Hexadecimal digit test (`[0-9a-fA-F]`). -/
def isHexC (c : Char) : Bool :=
  c.isDigit || ('a' ≤ c && c ≤ 'f') || ('A' ≤ c && c ≤ 'F')

/-- Value of a hexadecimal digit. -/
def hexDigitVal (c : Char) : ℕ :=
  if c.isDigit then c.toNat - 48
  else if 'a' ≤ c && c ≤ 'f' then c.toNat - 87
  else c.toNat - 55

/-- `parseInt(s, 16)` on an all-hex string. -/
def hexVal (s : List Char) : ℕ := s.foldl (fun a c => 16 * a + hexDigitVal c) 0

/-- `parseInt(s, 8)` on an all-octal string. -/
def octVal (s : List Char) : ℕ := s.foldl (fun a c => 8 * a + (c.toNat - 48)) 0

/-- The numeric part of `\o40` per `reOctalChar`
(`[0-3][0-7]{0,2}|[4-7][0-7]?`), greedy. -/
def takeOctal : List Char → Option (List Char × List Char)
  | [] => none
  | c :: r =>
    if '0' ≤ c && c ≤ '3' then
      let ext := (r.takeWhile isOctC).take 2
      some (c :: ext, r.drop ext.length)
    else if '4' ≤ c && c ≤ '7' then
      let ext := (r.takeWhile isOctC).take 1
      some (c :: ext, r.drop ext.length)
    else none

/-- A greedy run of at most `k` hexadecimal digits (`[0-9a-fA-F]{1,k}`). -/
def takeHexUpTo (k : ℕ) (l : List Char) : Option (List Char × List Char) :=
  let run := (l.takeWhile isHexC).take k
  if run.isEmpty then none else some (run, l.drop run.length)

/-- The lookaround operator `<?[=!]` after `\@` (and an optional count). -/
def lookOp : List Char → Option (List Char)
  | '<' :: d :: _ => if d = '=' ∨ d = '!' then some ['<', d] else none
  | c :: _ => if c = '=' ∨ c = '!' then some [c] else none
  | [] => none

/-- The column/mark suffix of the unsupported-`\%` scanner:
`(?:'.?|(?:\.|[0-9]+)?[lcv])`. -/
def pcentSuffix : List Char → Option (List Char)
  | [] => none
  | c :: r =>
    if c = apostChar then
      some
        (match r with
          | d :: _ => if lineTerm d then [c] else [c, d]
          | [] => [c])
    else if c = 'l' ∨ c = 'c' ∨ c = 'v' then some [c]
    else if c = '.' then
      match r with
      | d :: _ => if d = 'l' ∨ d = 'c' ∨ d = 'v' then some [c, d] else none
      | [] => none
    else if c.isDigit then
      let run := (c :: r).takeWhile Char.isDigit
      match (c :: r).drop run.length with
      | d :: _ => if d = 'l' ∨ d = 'c' ∨ d = 'v' then some (run ++ [d]) else none
      | [] => none
    else none

/-- The unsupported-`\%` token scanner
`^(?:V|#=?|[<>]?(?:'.?|(?:\.|[0-9]+)?[lcv]))`. -/
def pcentUnsup : List Char → Option (List Char)
  | [] => none
  | c :: r =>
    if c = 'V' then some [c]
    else if c = '#' then
      some
        (match r with
          | '=' :: _ => [c, '=']
          | _ => [c])
    else if c = '<' ∨ c = '>' then
      match pcentSuffix r with
      | some t => some (c :: t)
      | none => pcentSuffix (c :: r)
    else pcentSuffix (c :: r)

/-- The parsed bound groups of `\{`:
`^(?<ng>-)?(?<min>[0-9]+)?(?<comma>,)?(?<max>[0-9]+)?}`. -/
structure BraceBounds where
  lazyQ : Bool
  minD : Option (List Char)
  comma : Bool
  maxD : Option (List Char)
deriving Repr, DecidableEq

/-- Parse the bound groups after `\{`; returns the groups, the number of
characters consumed (including the closing brace) and the rest. -/
def parseBraceBounds (l : List Char) : Option (BraceBounds × ℕ × List Char) :=
  let ng := l.head? = some '-'
  let l1 := if ng then l.tail else l
  let minRun := l1.takeWhile Char.isDigit
  let l2 := l1.drop minRun.length
  let comma := l2.head? = some ','
  let l3 := if comma then l2.tail else l2
  let maxRun := l3.takeWhile Char.isDigit
  let l4 := l3.drop maxRun.length
  if l4.head? = some braceR then
    some
      (⟨decide ng, if minRun.isEmpty then none else some minRun, decide comma,
        if maxRun.isEmpty then none else some maxRun⟩,
        (if ng then 1 else 0) + minRun.length + (if comma then 1 else 0) +
          maxRun.length + 1,
        l4.tail)
  else none

/-- Host emission for a parsed `\{` quantifier.  Both bounds present clamps
the minimum with `Math.min` and reuses the original `max` digits; both absent
emits `*`; a no-comma single bound emits `{n}` without the lazy suffix.
(`parseInt`/`Math.min` are exact for the values considered here; JavaScript
number rounding above 2^53 is not modelled.) -/
def braceEmit (b : BraceBounds) : String :=
  match b.minD, b.maxD with
  | none, none => "*" ++ (if b.lazyQ then "?" else "")
  | some mn, some mx =>
    "\x7b" ++ Nat.repr (min (decimalVal mn) (decimalVal mx)) ++ "," ++
      String.mk mx ++ "\x7d" ++ (if b.lazyQ then "?" else "")
  | mn, mx =>
    if b.comma then
      "\x7b" ++ (match mn with | some d => String.mk d | none => "0") ++ "," ++
        (match mx with | some d => String.mk d | none => "") ++ "\x7d" ++
        (if b.lazyQ then "?" else "")
    else "\x7b" ++ (match mn with | some d => String.mk d | none => "") ++ "\x7d"

/-! ### Collections -/

/-- A named class `[:name:]` at the head: its total length (including the
brackets). -/
def matchNamed (l : List Char) : Option ℕ :=
  match l with
  | '[' :: ':' :: rest =>
    firstSome namedCharClasses fun p =>
      if (p.1.data ++ [':', ']']).isPrefixOf rest then
        some (2 + p.1.length + 2)
      else none
  | _ => none

/-- A chunk item of `reCollection` starting with `[` (named class,
equivalence class or collation element): its length and the offset of the
first `]` inside it (the backtracking re-entry point). -/
def chunkMatch (l : List Char) : Option (ℕ × ℕ) :=
  match matchNamed l with
  | some k => some (k, k - 1)
  | none =>
    match l with
    | '[' :: '=' :: c :: '=' :: ']' :: _ =>
      if lineTerm c then none else some (5, if c = ']' then 2 else 4)
    | '[' :: '.' :: c :: '.' :: ']' :: _ =>
      if lineTerm c then none else some (5, if c = ']' then 2 else 4)
    | _ => none

/-- The item scan of `reCollection`'s greedy star followed by the final `]`:
returns the number of characters matched up to and including the terminating
`]`.  `rb` is the extent to fall back to when the end of input is reached
(the most recent `\]` pair or `[`-chunk whose inner `]` can terminate the
match after backtracking). -/
def collScan : List Char → ℕ → Option ℕ → Option ℕ
  | [], _, rb => rb
  | c :: l, i, rb =>
    if c = ']' then some (i + 1)
    else if c = '\\' then
      match l with
      | d :: r => collScan r (i + 2) (if d = ']' then some (i + 2) else rb)
      | [] => collScan [] (i + 1) rb
    else
      match chunkMatch (c :: l) with
      | some (k, f) => collScan (l.drop (k - 1)) (i + k) (some (i + f + 1))
      | none => collScan l (i + 1) rb
termination_by l _ _ => l.length
decreasing_by
  all_goals simp_all [List.length_drop]
  all_goals omega

/-- `reCollection` applied to the input after the opening `[`: the length of
the match (including the final `]`), or `none` when there is no closing `]`
and the `[` is literal.  The optional `\^?\]?` prefix is greedy, falling back
to treating a sole leading `]` as the terminator. -/
def collExtent (l : List Char) : Option ℕ :=
  let pr :=
    match l with
    | '^' :: r => (1, r)
    | _ => (0, l)
  match pr.2 with
  | ']' :: l2 =>
    (match collScan l2 0 none with
      | some k => some (pr.1 + 1 + k)
      | none => some (pr.1 + 1))
  | _ => (collScan pr.2 0 none).map (pr.1 + ·)

/-- Candidates for `reEscapedChar`
(`\\(?:d[0-9]+|o…|x[0-9a-fA-F]{1,2}|u{1,4}|U{1,8}|.)`) at the head, in
backtracking order (each numeric form longest first, the 2-character `\\.`
form last). -/
def escCandidates (l : List Char) : List (List Char × List Char)  :=
  match l with
  | '\\' :: c :: r =>
    let dotForm : List (List Char × List Char) :=
      if lineTerm c then [] else [(['\\', c], r)]
    let numeric : List (List Char × List Char) :=
      if c = 'd' then
        (digitPrefixes r).map fun p => ('\\' :: c :: p.1, p.2)
      else if c = 'o' then
        match takeOctal r with
        | some (ds, _) =>
          (List.range ds.length).map fun i =>
            let k := ds.length - i
            ('\\' :: c :: ds.take k, r.drop k)
        | none => []
      else if c = 'x' then
        match takeHexUpTo 2 r with
        | some (ds, _) =>
          (List.range ds.length).map fun i =>
            let k := ds.length - i
            ('\\' :: c :: ds.take k, r.drop k)
        | none => []
      else if c = 'u' then
        match takeHexUpTo 4 r with
        | some (ds, _) =>
          (List.range ds.length).map fun i =>
            let k := ds.length - i
            ('\\' :: c :: ds.take k, r.drop k)
        | none => []
      else if c = 'U' then
        match takeHexUpTo 8 r with
        | some (ds, _) =>
          (List.range ds.length).map fun i =>
            let k := ds.length - i
            ('\\' :: c :: ds.take k, r.drop k)
        | none => []
      else []
    numeric ++ dotForm
  | _ => []

/-- The match `reEscapedChar` itself takes (greedy, first alternative). -/
def escFirst (l : List Char) : Option (List Char × List Char) :=
  (escCandidates l).head?

/-- One `special` alternative of `reCollectionYield`. -/
inductive CollSpecial
  | range (startT endT : List Char)
  | esc (txt : List Char)
  | named (name : String) (len : ℕ)
  | equiv
  | collate
  | uspecial (c : Char)
  | atEnd
deriving Repr, DecidableEq

/-- Characters consumed by a `special` match. -/
def CollSpecial.len : CollSpecial → ℕ
  | .range s e => s.length + 1 + e.length
  | .esc t => t.length
  | .named _ k => k
  | .equiv => 5
  | .collate => 5
  | .uspecial _ => 1
  | .atEnd => 0

/-- `reCharacterRange` (`(?<start>^[-\]]|[^-\]\\]|ESC)-(?<end>ESC|.)`) at the
head; `atZero` tells whether the scan position is index 0 of the collection
body (for the anchored first alternative). -/
def tryRange (cur : List Char) (atZero : Bool) : Option CollSpecial :=
  let startCands : List (List Char × List Char) :=
    (match cur with
      | c :: r =>
        (if atZero ∧ (c = '-' ∨ c = ']') then [([c], r)] else []) ++
          (if c ≠ '-' ∧ c ≠ ']' ∧ c ≠ '\\' then [([c], r)] else [])
      | [] => []) ++ escCandidates cur
  firstSome startCands fun p =>
    match p.2 with
    | '-' :: r2 =>
      (match escFirst r2 with
        | some (et, _) => some (.range p.1 et)
        | none =>
          match r2 with
          | d :: _ => if lineTerm d then none else some (.range p.1 [d])
          | [] => none)
    | _ => none

/-- The name of a named class `[:name:]` at the head, with its length. -/
def matchNamedName (l : List Char) : Option (String × ℕ) :=
  match l with
  | '[' :: ':' :: rest =>
    firstSome namedCharClasses fun p =>
      if (p.1.data ++ [':', ']']).isPrefixOf rest then
        some (p.1, 2 + p.1.length + 2)
      else none
  | _ => none

/-- The `special` alternation of `reCollectionYield` at one position, tried
in source order: character range, escaped character, named class, equivalence
class, collation element, reserved character, end of input. -/
def trySpecial (cur : List Char) (atZero : Bool) : Option CollSpecial :=
  match cur with
  | [] => some .atEnd
  | c :: _ =>
    match tryRange cur atZero with
    | some s => some s
    | none =>
      match escFirst cur with
      | some (t, _) => some (.esc t)
      | none =>
        match matchNamedName cur with
        | some (nm, k) => some (.named nm k)
        | none =>
          match cur with
          | '[' :: '=' :: d :: '=' :: ']' :: _ =>
            if lineTerm d then none else some .equiv
          | '[' :: '.' :: d :: '.' :: ']' :: _ =>
            if lineTerm d then none else some .collate
          | _ => if isUSetSpecial c then some (.uspecial c) else none

/-- The lazy `(?<normal>.*?)` search: the smallest offset at which a
`special` matches.  `normal` cannot cross a line terminator, so the search
stops (and `replaceAll` leaves the remainder verbatim) when the position of
the first line terminator yields no match. -/
def findSpecial (l : List Char) (pos : ℕ) : Option (ℕ × CollSpecial) :=
  go l 0
where
  go : List Char → ℕ → Option (ℕ × CollSpecial)
    | cur, k =>
      match trySpecial cur (pos + k = 0) with
      | some s => some (k, s)
      | none =>
        match cur with
        | [] => none
        | c :: r => if lineTerm c then none else go r (k + 1)

/-- `parseEscapedCharInCollection` from regexp.ts. -/
def escCharInColl (s : List Char) : String :=
  match s with
  | '\\' :: rest =>
    (match rest with
      | [c] =>
        match escapeChars c with
        | some e => some e
        | none => none
      | _ => none).getD
      (match rest with
        | 'd' :: ds =>
          if ds.isEmpty then "" else toCharCode (decimalVal ds) ""
        | 'o' :: ds =>
          if ds.isEmpty then "" else toCharCode (octVal ds) ""
        | 'x' :: ds =>
          if ds.isEmpty then "" else toCharCode (hexVal ds) ""
        | 'u' :: ds =>
          if ds.isEmpty then "" else toCharCode (hexVal ds) ""
        | 'U' :: ds =>
          if ds.isEmpty then "" else toCharCode (hexVal ds) ""
        | c :: _ => "\\\\" ++ toCharCode c.toNat ""
        | [] => "\\\\")
  | [c] => if isUSetSpecial c then toCharCode c.toNat "" else String.singleton c
  | other => String.mk other

end VimRe

namespace VimRe

/-- Replacement text for one `special` match of `reCollectionYield`; named
classes with `none` emission call the character-class compiler and the
equivalence/collation classes raise `UnsupportedSyntaxError`. -/
def applySpecial (opts : VimRegExpOptions) (atomIdx : ℕ) :
    CollSpecial → Except VErr String
  | .atEnd => .ok ""
  | .range st et => .ok (escCharInColl st ++ "-" ++ escCharInColl et)
  | .esc t => .ok (escCharInColl t)
  | .named nm _ =>
    match (namedCharClasses.lookup nm).getD none with
    | some s => .ok s
    | none =>
      let t := typeOfNullClass nm
      match patternToCharClass (optString opts t) (some t) true with
      | .ok s => .ok s
      | .error e => .error ⟨.charclass e, 0⟩
  | .equiv => .error ⟨.unsupported "[[=a=]]", atomIdx⟩
  | .collate => .error ⟨.unsupported "[[.a.]]", atomIdx⟩
  | .uspecial c => .ok (escCharInColl [c])

/-- The `replaceAll(reCollectionYield, …)` loop over a collection body:
each sticky match contributes the verbatim `normal` prefix and the
transformed `special`; an unmatchable position leaves the rest verbatim. -/
def collectionYield (opts : VimRegExpOptions) (atomIdx : ℕ) :
    ℕ → List Char → ℕ → Except VErr String
  | 0, l, _ => .ok (String.mk l)
  | fuel + 1, l, pos =>
    match findSpecial l pos with
    | none => .ok (String.mk l)
    | some (k, spec) =>
      match spec with
      | .atEnd => .ok (String.mk l)
      | _ => do
        let tr ← applySpecial opts atomIdx spec
        let rec' ← collectionYield opts atomIdx fuel (l.drop (k + spec.len)) (pos + k + spec.len)
        pure (String.mk (l.take k) ++ tr ++ rec')

/-- `parseCollection` from regexp.ts: the optional leading `^` passes
through, the rest is rewritten match by match. -/
def parseCollection (opts : VimRegExpOptions) (atomIdx : ℕ) (content : List Char) :
    Except VErr String :=
  match content with
  | '^' :: r => (collectionYield opts atomIdx (r.length + 1) r 0).map ("^" ++ ·)
  | _ => collectionYield opts atomIdx (content.length + 1) content 0

/-! ### The scanner loop -/

/-- The mutable state of `parseVimPattern`'s scan loop: the current magicness
and ignore-case flags, the output buffer `resPattern`, the group stack
`groupIndices`, `lastGroupIndex`, the concat stack `concatIndices` and the
pending end-of-line index `maybe$Index`. -/
structure PState where
  magic : ℕ
  ignorecase : Bool
  buf : List String
  groupIdx : List ℕ
  lastGroupIdx : Option ℕ
  concatIdx : List ℕ
  maybeDollar : Option ℕ
deriving Repr, DecidableEq

/-- Append one host token to the output buffer. -/
def PState.push (st : PState) (t : String) : PState :=
  { st with buf := st.buf ++ [t] }

/-- `hasAtom`: the current concat segment has already emitted something. -/
def PState.hasAtom (st : PState) : Bool :=
  match st.concatIdx.getLast? with
  | some k => decide (k < st.buf.length)
  | none => false

/-- `correct$ToLiteral`: a pending `$` that is not the last emitted token is
rewritten to the literal `\$`. -/
def PState.correctDollar (st : PState) : PState :=
  match st.maybeDollar with
  | some i =>
    if i + 1 < st.buf.length then
      { st with buf := st.buf.set i "\\$", maybeDollar := none }
    else { st with maybeDollar := none }
  | none => st

/-- Result of one iteration of the scan loop. -/
inductive StepRes
  | err (e : VErr)
  | cont (st : PState) (rest : List Char) (pos : ℕ)
deriving Repr, DecidableEq

/-- The compiled character class for one of the four option strings, with
`CharClassSyntaxError`s bubbling up. -/
def getCharClass (opts : VimRegExpOptions) (t : PatternType) : Except VErr String :=
  match patternToCharClass (optString opts t) (some t) true with
  | .ok s => .ok s
  | .error e => .error ⟨.charclass e, 0⟩

end VimRe

namespace VimRe

/-- One iteration of `parseVimPattern`'s `while` loop: consume one atom from
the input (starting at source index `pos`) and update the state, mirroring
the source's backslash detection, quantifier scan and character switch. -/
def step (opts : VimRegExpOptions) (st : PState) (l : List Char) (pos : ℕ) : StepRes :=
  let atomIdx := pos
  let sm := opts.stringMatch
  match l with
  | [] => .cont st [] pos
  | c0 :: l0 =>
    let backslash := c0 = '\\'
    let l1 := if backslash then l0 else c0 :: l0
    let pos1 := if backslash then pos + 1 else pos
    match l1 with
    | [] =>
      -- a trailing backslash: `vimPattern[index++]` is undefined and the
      -- default branch pushes it; `join("")` renders it as the empty string
      .cont (st.push "") [] (pos1 + 1)
    | c :: l2 =>
      let pos2 := pos1 + 1
      let atomText := (if backslash then "\\" else "") ++ String.singleton c
      if c = '*' ∨ c = '+' ∨ c = '=' ∨ c = '?' ∨ c = braceL ∨ c = '@' then
        -- quantifier branch
        if c = '*' then
          if (if backslash then NOMAGIC ≤ st.magic
              else st.magic ≤ MAGIC ∧ st.hasAtom) then
            .cont (st.push "*") l2 pos2
          else .cont (st.push "\\*") l2 pos2
        else if c = '+' then
          if (if backslash then MAGIC ≤ st.magic else st.magic ≤ VERY_MAGIC) then
            if st.hasAtom then .cont (st.push "+") l2 pos2
            else .err ⟨.nothingToRepeat atomText, atomIdx⟩
          else .cont (st.push "\\+") l2 pos2
        else if c = '=' then
          if (if backslash then MAGIC ≤ st.magic else st.magic ≤ VERY_MAGIC) then
            if st.hasAtom then .cont (st.push "?") l2 pos2
            else .err ⟨.nothingToRepeat atomText, atomIdx⟩
          else .cont (st.push "=") l2 pos2
        else if c = '?' then
          if (if backslash then MAGIC ≤ st.magic else st.magic ≤ VERY_MAGIC) then
            if st.hasAtom then .cont (st.push "?") l2 pos2
            else .err ⟨.nothingToRepeat atomText, atomIdx⟩
          else .cont (st.push "\\?") l2 pos2
        else if c = braceL then
          if (if backslash then MAGIC ≤ st.magic else st.magic ≤ VERY_MAGIC) then
            if st.hasAtom then
              match parseBraceBounds l2 with
              | some (b, n, rest) => .cont (st.push (braceEmit b)) rest (pos2 + n)
              | none => .err ⟨.invalidKeyword "", atomIdx⟩
            else .err ⟨.nothingToRepeat atomText, atomIdx⟩
          else .cont (st.push "\\\x7b") l2 pos2
        else
          -- c = '@'
          if (if backslash then MAGIC ≤ st.magic else st.magic ≤ VERY_MAGIC) then
            if st.hasAtom then
              match l2 with
              | '>' :: _ => .err ⟨.unsupported "\\@>", atomIdx⟩
              | _ =>
                let digs := l2.takeWhile Char.isDigit
                let l3 := l2.drop digs.length
                match lookOp l3 with
                | none => .err ⟨.invalidKeyword "", atomIdx⟩
                | some opT =>
                  let l4 := l3.drop opT.length
                  let pStr := String.mk opT
                  let posNew := pos2 + digs.length + opT.length
                  if st.buf.getLast? = some ")" then
                    match st.lastGroupIdx with
                    | some k =>
                      .cont { st with buf := st.buf.set k ("(?" ++ pStr) } l4 posNew
                    | none => .cont st l4 posNew
                  else
                    let lastT :=
                      match st.buf.getLast? with
                      | some t => [t]
                      | none => []
                    .cont { st with buf := st.buf.dropLast ++ ["(?" ++ pStr] ++ lastT ++ [")"] }
                      l4 posNew
            else .err ⟨.nothingToRepeat atomText, atomIdx⟩
          else .cont (st.push "@") l2 pos2
      else if c = '\\' then .cont (st.push "\\\\") l2 pos2
      else if c = '^' then
        if (if backslash then VERY_NOMAGIC ≤ st.magic else st.magic ≤ NOMAGIC) then
          if st.hasAtom then
            if st.buf.getLast? = some "\n" ∨ st.buf.getLast? = some "\\n" ∨
                st.buf.getLast? = some "\\x0a" then
              .cont (st.push (if sm then "^" else "(?:)")) l2 pos2
            else .cont (st.push "\\^") l2 pos2
          else .cont (st.push (if sm then "^" else "(?:^|(?<=\\n))")) l2 pos2
        else .cont (st.push "\\^") l2 pos2
      else if c = '$' then
        if (if backslash then VERY_NOMAGIC ≤ st.magic else st.magic ≤ NOMAGIC) then
          .cont
            { st with
              maybeDollar := some st.buf.length,
              buf := st.buf ++ [if sm then "$" else "(?:(?=\\n)|$)"] } l2 pos2
        else .cont (st.push "\\$") l2 pos2
      else if c = '.' then
        .cont
          (st.push
            (if (if backslash then NOMAGIC ≤ st.magic else st.magic ≤ MAGIC) then
              "[^\\n]"
            else "\\.")) l2 pos2
      else if c = '<' then
        match getCharClass opts .iskeyword with
        | .error e => .err e
        | .ok w => .cont (st.push ("(?<!" ++ w ++ ")(?=" ++ w ++ ")")) l2 pos2
      else if c = '>' then
        match getCharClass opts .iskeyword with
        | .error e => .err e
        | .ok w => .cont (st.push ("(?<=" ++ w ++ ")(?!" ++ w ++ ")")) l2 pos2
      else if c = '~' then
        if (if backslash then NOMAGIC ≤ st.magic else st.magic ≤ MAGIC) then
          .err ⟨.unsupported "~", atomIdx⟩
        else .cont (st.push "~") l2 pos2
      else if c = '(' then
        if (if backslash then MAGIC ≤ st.magic else st.magic ≤ VERY_MAGIC) then
          .cont
            { st with
              groupIdx := st.groupIdx ++ [st.buf.length],
              buf := st.buf ++ ["("],
              concatIdx := st.concatIdx ++ [st.buf.length + 1] } l2 pos2
        else .cont (st.push "\\(") l2 pos2
      else if c = ')' then
        if (if backslash then MAGIC ≤ st.magic else st.magic ≤ VERY_MAGIC) then
          match st.groupIdx.getLast? with
          | none => .err ⟨.unmatchedParen, atomIdx⟩
          | some g =>
            let st' : PState :=
              { st with
                groupIdx := st.groupIdx.dropLast,
                lastGroupIdx := some g,
                concatIdx := st.concatIdx.dropLast }
            .cont (st'.correctDollar.push ")") l2 pos2
        else .cont (st.push "\\)") l2 pos2
      else if c = '|' then
        if (if backslash then MAGIC ≤ st.magic else st.magic ≤ VERY_MAGIC) then
          let st' := st.correctDollar.push "|"
          .cont { st' with concatIdx := st'.concatIdx.dropLast ++ [st'.buf.length] }
            l2 pos2
        else .cont (st.push "\\|") l2 pos2
      else if c = '&' then
        if (if backslash then MAGIC ≤ st.magic else st.magic ≤ VERY_MAGIC) then
          let st' := st.correctDollar
          let k := st'.concatIdx.getLast?.getD 0
          let buf' := (st'.buf.take k ++ ["(?="] ++ st'.buf.drop k) ++ [")"]
          .cont
            { st' with
              buf := buf',
              concatIdx := st'.concatIdx.dropLast ++ [buf'.length] } l2 pos2
        else .cont (st.push "&") l2 pos2
      else if c = '%' then
        if (if backslash then MAGIC ≤ st.magic else st.magic ≤ VERY_MAGIC) then
          match l2 with
          | '(' :: r =>
            .cont
              { st with
                groupIdx := st.groupIdx ++ [st.buf.length],
                buf := st.buf ++ ["(?:"],
                concatIdx := st.concatIdx ++ [st.buf.length + 1] } r (pos2 + 1)
          | '^' :: r => .cont (st.push "^") r (pos2 + 1)
          | '$' :: r => .cont (st.push "$") r (pos2 + 1)
          | 'd' :: r =>
            let run := r.takeWhile Char.isDigit
            if run.isEmpty then .err ⟨.invalidKeyword "", atomIdx⟩
            else
              .cont (st.push (toCharCode (decimalVal run) "")) (r.drop run.length)
                (pos2 + 1 + run.length)
          | 'o' :: r =>
            (match takeOctal r with
              | none => .err ⟨.invalidKeyword "", atomIdx⟩
              | some (ds, rest) =>
                .cont (st.push (toCharCode (octVal ds) "")) rest
                  (pos2 + 1 + ds.length))
          | 'x' :: r =>
            (match takeHexUpTo 2 r with
              | none => .err ⟨.invalidKeyword "", atomIdx⟩
              | some (ds, rest) =>
                .cont (st.push (toCharCode (hexVal ds) "")) rest
                  (pos2 + 1 + ds.length))
          | 'u' :: r =>
            (match takeHexUpTo 4 r with
              | none => .err ⟨.invalidKeyword "", atomIdx⟩
              | some (ds, rest) =>
                .cont (st.push (toCharCode (hexVal ds) "")) rest
                  (pos2 + 1 + ds.length))
          | 'U' :: r =>
            (match takeHexUpTo 8 r with
              | none => .err ⟨.invalidKeyword "", atomIdx⟩
              | some (ds, rest) =>
                .cont (st.push (toCharCode (hexVal ds) "[]")) rest
                  (pos2 + 1 + ds.length))
          | '[' :: _ => .err ⟨.unsupported "\\%[]", atomIdx⟩
          | 'C' :: _ => .err ⟨.unsupported "\\%C", atomIdx⟩
          | other =>
            match pcentUnsup other with
            | some t => .err ⟨.unsupported ("\\%" ++ String.mk t), atomIdx⟩
            | none => .err ⟨.invalidKeyword "\\%", atomIdx⟩
        else .cont (st.push "%") l2 pos2
      else if c = '[' then
        if (if backslash then NOMAGIC ≤ st.magic else st.magic ≤ MAGIC) then
          match collExtent l2 with
          | none => .cont (st.push "\\[") l2 pos2
          | some k =>
            let txt := l2.take k
            if txt = [']'] then .cont (st.push "\\[\\]") (l2.drop k) (pos2 + k)
            else
              match parseCollection opts atomIdx txt.dropLast with
              | .error e => .err e
              | .ok body =>
                .cont (st.push ("[" ++ body ++ "]")) (l2.drop k) (pos2 + k)
        else .cont (st.push "\\[") l2 pos2
      else if c = ']' then .cont (st.push "\\]") l2 pos2
      else if c = '_' then
        if (if backslash then MAGIC ≤ st.magic else st.magic ≤ VERY_MAGIC) then
          match l2 with
          | [] => .err ⟨.invalidCharClass "\\_", atomIdx⟩
          | k :: r =>
            match singleCharClasses k with
            | some cls => .cont (st.push cls.2) r (pos2 + 1)
            | none =>
              if k = '^' then
                .cont (st.push (if sm then "^" else "(?:^|(?<=\\n))")) r (pos2 + 1)
              else if k = '$' then
                .cont (st.push (if sm then "$" else "(?:(?=\\n)|$)")) r (pos2 + 1)
              else if k = '.' then .cont (st.push ".") r (pos2 + 1)
              else if k = '[' then
                match collExtent r with
                | none => .cont (st.push "\\[") r (pos2 + 1)
                | some n =>
                  let txt := r.take n
                  if txt = [']'] then
                    .cont (st.push "\\[\\]") (r.drop n) (pos2 + 1 + n)
                  else
                    match parseCollection opts atomIdx txt.dropLast with
                    | .error e => .err e
                    | .ok body =>
                      .cont (st.push ("[\\n[" ++ body ++ "]]")) (r.drop n)
                        (pos2 + 1 + n)
              else if k = 'i' then
                match getCharClass opts .isident with
                | .error e => .err e
                | .ok w => .cont (st.push ("[\\n" ++ w ++ "]")) r (pos2 + 1)
              else if k = 'I' then
                match getCharClass opts .isident with
                | .error e => .err e
                | .ok w => .cont (st.push ("[[\\n" ++ w ++ "]--[0-9]]")) r (pos2 + 1)
              else if k = 'k' then
                match getCharClass opts .iskeyword with
                | .error e => .err e
                | .ok w => .cont (st.push ("[\\n" ++ w ++ "]")) r (pos2 + 1)
              else if k = 'K' then
                match getCharClass opts .iskeyword with
                | .error e => .err e
                | .ok w => .cont (st.push ("[[\\n" ++ w ++ "]--[0-9]]")) r (pos2 + 1)
              else if k = 'f' then
                match getCharClass opts .isfname with
                | .error e => .err e
                | .ok w => .cont (st.push ("[\\n" ++ w ++ "]")) r (pos2 + 1)
              else if k = 'F' then
                match getCharClass opts .isfname with
                | .error e => .err e
                | .ok w => .cont (st.push ("[[\\n" ++ w ++ "]--[0-9]]")) r (pos2 + 1)
              else if k = 'p' then
                match getCharClass opts .isprint with
                | .error e => .err e
                | .ok w => .cont (st.push ("[\\n" ++ w ++ "]")) r (pos2 + 1)
              else if k = 'P' then
                match getCharClass opts .isprint with
                | .error e => .err e
                | .ok w => .cont (st.push ("[[\\n" ++ w ++ "]--[0-9]]")) r (pos2 + 1)
              else
                .err ⟨.invalidCharClass ("\\_" ++ String.singleton k), atomIdx⟩
        else .cont (st.push "_") l2 pos2
      else if backslash then
        let st := if c = 'n' then st.correctDollar else st
        match escapeChars c with
        | some e => .cont (st.push e) l2 pos2
        | none =>
          match singleCharClasses c with
          | some cls => .cont (st.push cls.1) l2 pos2
          | none =>
            if c = 'i' then
              match getCharClass opts .isident with
              | .error e => .err e
              | .ok w => .cont (st.push w) l2 pos2
            else if c = 'I' then
              match getCharClass opts .isident with
              | .error e => .err e
              | .ok w => .cont (st.push ("[" ++ w ++ "--[0-9]]")) l2 pos2
            else if c = 'k' then
              match getCharClass opts .iskeyword with
              | .error e => .err e
              | .ok w => .cont (st.push w) l2 pos2
            else if c = 'K' then
              match getCharClass opts .iskeyword with
              | .error e => .err e
              | .ok w => .cont (st.push ("[" ++ w ++ "--[0-9]]")) l2 pos2
            else if c = 'f' then
              match getCharClass opts .isfname with
              | .error e => .err e
              | .ok w => .cont (st.push w) l2 pos2
            else if c = 'F' then
              match getCharClass opts .isfname with
              | .error e => .err e
              | .ok w => .cont (st.push ("[" ++ w ++ "--[0-9]]")) l2 pos2
            else if c = 'p' then
              match getCharClass opts .isprint with
              | .error e => .err e
              | .ok w => .cont (st.push w) l2 pos2
            else if c = 'P' then
              match getCharClass opts .isprint with
              | .error e => .err e
              | .ok w => .cont (st.push ("[" ++ w ++ "--[0-9]]")) l2 pos2
            else if c = 'c' then .cont { st with ignorecase := true } l2 pos2
            else if c = 'C' then .cont { st with ignorecase := false } l2 pos2
            else if c = 'z' then
              match l2 with
              | op :: _ =>
                if op = 's' ∨ op = 'e' ∨ op = '(' ∨ ('1' ≤ op ∧ op ≤ '9') then
                  .err ⟨.unsupported ("\\z" ++ String.singleton op), atomIdx⟩
                else .err ⟨.invalidKeyword ("\\z" ++ String.singleton op), atomIdx⟩
              | [] => .err ⟨.invalidKeyword "\\z", atomIdx⟩
            else if c = 'Z' then .err ⟨.unsupported "\\Z", atomIdx⟩
            else if c = 'm' then .cont { st with magic := MAGIC } l2 pos2
            else if c = 'M' then .cont { st with magic := NOMAGIC } l2 pos2
            else if c = 'v' then .cont { st with magic := VERY_MAGIC } l2 pos2
            else if c = 'V' then .cont { st with magic := VERY_NOMAGIC } l2 pos2
            else if '1' ≤ c ∧ c ≤ '9' then
              .cont (st.push ("(?:\\" ++ String.singleton c ++ ")")) l2 pos2
            else .cont (st.push (String.singleton c)) l2 pos2
      else .cont (st.push (String.singleton c)) l2 pos2

/-- Drive the scan loop to the end of the input. -/
def runSteps (opts : VimRegExpOptions) :
    ℕ → PState → List Char → ℕ → Except VErr PState
  | 0, st, _, _ => .ok st
  | _ + 1, st, [], _ => .ok st
  | fuel + 1, st, c :: l, pos =>
    match step opts st (c :: l) pos with
    | .err e => .error e
    | .cont st' rest pos' => runSteps opts fuel st' rest pos'

/-- The smartcase scan `/^(?:\\.|[^\\])*?\p{Lu}/u.test(source)`: an
upper-case letter at an atom boundary (escaped pairs skipped).  `Char.isUpper`
stands in for `\p{Lu}`; they agree on ASCII sources. -/
def hasUpperBoundary : List Char → Bool
  | [] => false
  | '\\' :: d :: r => if lineTerm d then false else hasUpperBoundary r
  | '\\' :: [] => false
  | c :: r => c.isUpper || hasUpperBoundary r

/-- `/[mu]/.test(options.flags)`. -/
def hasFlagMU (f : String) : Bool :=
  f.data.any fun c => c = 'm' ∨ c = 'u'

/-- One step of the flag union: `flags.includes(add) ? flags : flags + add`. -/
def addFlag (acc : List Char) (a : Char) : List Char :=
  if a ∈ acc then acc else acc ++ [a]

/-- The final flag set: the caller's flags unioned with `s`, `v` and, when
ignore-case is in force at the end of compilation, `i` (each appended only
when absent). -/
def mkFlags (callerFlags : String) (ignorecase : Bool) : String :=
  ⟨(("sv" ++ if ignorecase then "i" else "").data).foldl addFlag callerFlags.data⟩

/-- The compiled pattern: host source and flags. -/
structure CompileResult where
  source : String
  flags : String
deriving Repr, DecidableEq

/-- `parseVimPattern` from regexp.ts: reject `m`/`u` flags, scan the pattern,
commit a pending `$`, join the buffer and build the final flags. -/
def parseVimPattern (source : String) (opts : VimRegExpOptions) :
    Except VErr CompileResult :=
  if hasFlagMU opts.flags then .error ⟨.invalidFlags opts.flags, 0⟩
  else
    let magic0 := if opts.magic then MAGIC else NOMAGIC
    let ic0 := opts.ignorecase && !(opts.smartcase && hasUpperBoundary source.data)
    let st0 : PState := ⟨magic0, ic0, [], [], none, [0], none⟩
    match runSteps opts (source.data.length + 1) st0 source.data 0 with
    | .error e => .error e
    | .ok st =>
      let st := st.correctDollar
      .ok ⟨String.join st.buf, mkFlags opts.flags st.ignorecase⟩

/-- The final internal ignore-case state of a successful compilation: the
value `ignorecase` holds after the scan — initialized from the
`ignorecase`/`smartcase` options, toggled by `\c` and `\C` — which decides
whether the internal `i` flag is appended to the final flag string. -/
def compiledIgnoreCase (source : String) (opts : VimRegExpOptions) :
    Option Bool :=
  if hasFlagMU opts.flags then none
  else
    let magic0 := if opts.magic then MAGIC else NOMAGIC
    let ic0 := opts.ignorecase && !(opts.smartcase && hasUpperBoundary source.data)
    let st0 : PState := ⟨magic0, ic0, [], [], none, [0], none⟩
    match runSteps opts (source.data.length + 1) st0 source.data 0 with
    | .error _ => none
    | .ok st => some st.correctDollar.ignorecase

/-! ### Public wrapper (`VimRegExp`) -/

/-- The observable state of a constructed `VimRegExp`: the retained Vim
source, the emitted host source and flags (both passed to the host `RegExp`
constructor via `super(source, flags)`), and the merged options. -/
structure VimRegExpModel where
  vimSource : String
  source : String
  flags : String
  options : VimRegExpOptions
deriving Repr, DecidableEq

/-- Construct the wrapper from a pattern and merged options. -/
def mkVimRegExp (pattern : String) (opts : VimRegExpOptions) :
    Except VErr VimRegExpModel :=
  (parseVimPattern pattern opts).map fun r =>
    ⟨pattern, r.source, r.flags, opts⟩

/-- `hasIndices` — the host `RegExp` getter delegated by the wrapper: per
ECMAScript it reports whether `d` is among the flags the regex was
constructed with. -/
def VimRegExpModel.hasIndices (w : VimRegExpModel) : Bool := decide ('d' ∈ w.flags.data)

/-- `global` — host getter for the `g` flag. -/
def VimRegExpModel.global (w : VimRegExpModel) : Bool := decide ('g' ∈ w.flags.data)

/-- `ignoreCase` — host getter for the `i` flag. -/
def VimRegExpModel.ignoreCase (w : VimRegExpModel) : Bool := decide ('i' ∈ w.flags.data)

/-- `sticky` — host getter for the `y` flag. -/
def VimRegExpModel.sticky (w : VimRegExpModel) : Bool := decide ('y' ∈ w.flags.data)

end VimRe

set_option maxRecDepth 16000
set_option maxHeartbeats 2000000

namespace VimRe

/-! ## Lemmas about the character-class compiler -/

/-- Membership after a `Set.add`. -/
theorem mem_setAdd {c x : ℕ} {s : List ℕ} (h : c ∈ setAdd x s) : c ∈ s ∨ c = x := by
  unfold setAdd at h
  split at h
  · exact Or.inl h
  · rcases List.mem_append.mp h with h' | h'
    · exact Or.inl h'
    · exact Or.inr (List.mem_singleton.mp h')

/-- Membership after a `Set.delete`. -/
theorem mem_setDel {c x : ℕ} {s : List ℕ} (h : c ∈ setDel x s) : c ∈ s ∧ c ≠ x := by
  unfold setDel at h
  have := List.mem_filter.mp h
  exact ⟨this.1, by simpa using this.2⟩

/-- Membership after applying a list of codes to the set. -/
theorem mem_setChars {c : ℕ} {chars : List ℕ} {inv : Bool} :
    ∀ {s : List ℕ}, c ∈ setChars chars inv s → c ∈ s ∨ c ∈ chars := by
  induction chars with
  | nil => intro s h; exact Or.inl h
  | cons x xs ih =>
    intro s h
    have h' := ih (s := if inv then setDel x s else setAdd x s) h
    rcases h' with h' | h'
    · split at h'
      · exact Or.inl (mem_setDel h').1
      · rcases mem_setAdd h' with h'' | h''
        · exact Or.inl h''
        · exact Or.inr (by simp [h''])
    · exact Or.inr (List.mem_cons_of_mem _ h')

/-- Deleting a list of codes removes every one of them. -/
theorem mem_setChars_del {c : ℕ} {chars : List ℕ} :
    ∀ {s : List ℕ}, c ∈ setChars chars true s → c ∈ s ∧ c ∉ chars := by
  induction chars with
  | nil => intro s h; exact ⟨h, by simp⟩
  | cons x xs ih =>
    intro s h
    have h' := ih (s := setDel x s) h
    have h'' := mem_setDel h'.1
    exact ⟨h''.1, by simp [h''.2, h'.2]⟩

/-- Every code denoted by an entry lies in `[1, 255]`. -/
theorem entryChars_bounded {e : CCEntry} {cs : List ℕ} (h : entryChars e = some cs) :
    ∀ c ∈ cs, 1 ≤ c ∧ c ≤ 255 := by
  unfold entryChars at h
  split at h
  · cases h
    decide
  · split at h
    · rename_i hb
      cases h
      intro c hc
      have := List.mem_range'_1.mp hc
      omega
    · cases h

/-- The set computed by the entry scan only grows by codes in `[1, 255]`. -/
theorem parseCC_mem (src : List Char) :
    ∀ (fuel : ℕ) (l : List Char) (pos : ℕ) (prev : Option Char) (s0 s : List ℕ),
      parseCC src fuel l pos prev s0 = .ok s →
      ∀ c ∈ s, c ∈ s0 ∨ (1 ≤ c ∧ c ≤ 255) := by
  intro fuel
  induction fuel with
  | zero =>
    intro l pos prev s0 s h c hc
    cases h
    exact Or.inl hc
  | succ fuel ih =>
    intro l pos prev s0 s h c hc
    match l with
    | [] =>
      cases h
      exact Or.inl hc
    | ch :: l' =>
      rw [parseCC] at h
      split at h
      · split at h
        · cases h; exact Or.inl hc
        · cases h
      · rename_i e n _
        split at h
        · cases h
        · rename_i cs hec
          have := ih _ _ _ _ _ h c hc
          rcases this with h' | h'
          · unfold applyEntry at h'
            rcases mem_setChars h' with h'' | h''
            · exact Or.inl h''
            · exact Or.inr (entryChars_bounded hec c h'')
          · exact Or.inr h'

/-- The fused entry loop is the phase-split pipeline: tokenize, flag the
first invalid range (else the junk block), else fold the entries. -/
theorem parseCC_split (src : List Char) :
    ∀ (fuel : ℕ) (l : List Char) (pos : ℕ) (prev : Option Char) (s : List ℕ),
      parseCC src fuel l pos prev s =
        (match firstBadEntry (scanCC fuel l pos prev).1 with
          | some j => .error ⟨.invalidCodeRange, src, j⟩
          | none =>
            match (scanCC fuel l pos prev).2 with
            | some k => .error ⟨.invalidKeyword, src, k⟩
            | none => .ok (foldEntries (scanCC fuel l pos prev).1 s)) := by
  intro fuel
  induction fuel with
  | zero =>
    intro l pos prev s
    simp [parseCC, scanCC, firstBadEntry, foldEntries]
  | succ fuel ih =>
    intro l pos prev s
    match l with
    | [] => simp [parseCC, scanCC, firstBadEntry, foldEntries]
    | ch :: l' =>
      rcases hso : scanOne prev (ch :: l') with _ | ⟨e, n⟩
      · rw [parseCC, scanCC]
        simp only [hso]
        split
        · simp [firstBadEntry, foldEntries]
        · simp [firstBadEntry, foldEntries]
      · rw [parseCC, scanCC]
        simp only [hso]
        rcases hec : entryChars e with _ | cs
        · simp [firstBadEntry, hec]
        · dsimp only
          rw [ih]
          simp [firstBadEntry, hec, foldEntries]

/-- The forcing pattern of every type parses successfully from any set. -/
theorem forceParse_ok (t : PatternType) (s : List ℕ) :
    ∃ s', parseCC (FORCE_CHAR_PATTERNS t).data ((FORCE_CHAR_PATTERNS t).data.length + 1)
        (FORCE_CHAR_PATTERNS t).data 0 none s = .ok s' := by
  cases t
  case isident => exact ⟨s, rfl⟩
  case iskeyword => exact ⟨s, rfl⟩
  case isfname =>
    rw [show FORCE_CHAR_PATTERNS PatternType.isfname = "^160-255" from rfl,
      show ("^160-255" : String).data.length + 1 = 9 from rfl, parseCC_split]
    rw [show scanCC 9 ("^160-255" : String).data 0 none =
      ([(0, ⟨true, ['1', '6', '0'], some ['2', '5', '5']⟩)], none) from by decide]
    exact ⟨_, rfl⟩
  case isprint =>
    rw [show FORCE_CHAR_PATTERNS PatternType.isprint = "32-126,^160-255" from rfl,
      show ("32-126,^160-255" : String).data.length + 1 = 16 from rfl, parseCC_split]
    rw [show scanCC 16 ("32-126,^160-255" : String).data 0 none =
      ([(0, ⟨false, ['3', '2'], some ['1', '2', '6']⟩),
        (7, ⟨true, ['1', '6', '0'], some ['2', '5', '5']⟩)], none) from by decide]
    exact ⟨_, rfl⟩

/-- **C1** (corrected).  The claim says the forcing overlay for `isident` and
`iskeyword` removes every accumulated code point, leaving an empty ASCII
portion for every option string.  In the code `FORCE_CHAR_PATTERNS` maps both
types to the empty string, which the guard `if (forcePattern)` skips, so the
overlay removes nothing: compiling with type `isident` equals compiling with
no type at all, and `iskeyword` only appends the fixed Unicode tail to the
very same ASCII body. -/
theorem C1_isident_iskeyword_overlay_empty (P : String) :
    computeCharSet P (some .isident) true = computeCharSet P none true ∧
    computeCharSet P (some .iskeyword) true = computeCharSet P none true ∧
    patternToCharClass P (some .isident) true = patternToCharClass P none true ∧
    patternToCharClass P (some .iskeyword) true =
      (computeCharSet P none true).map
        (fun s => "[" ++ classBody s ++ UNICODE_CHAR_CLASSES .iskeyword ++ "]") := by
  refine ⟨rfl, rfl, rfl, rfl⟩

/-- **C1** counterexample: with `P = "a"` and type `isident` the emitted
class is `[\x61]`, whose ASCII portion is not empty, contradicting the claim
that the overlay removes everything regardless of `P`. -/
theorem C1_counterexample :
    patternToCharClass "a" (some .isident) true = .ok "[\\x61]" ∧
    patternToCharClass "a" (some .iskeyword) true =
      .ok "[\\x61[[\\p\x7bL\x7d\\p\x7bN\x7d\\p\x7bEmoji\x7d]--[\\x00-\\xff]]]" ∧
    "[\\x61]" ≠ "[]" := by
  refine ⟨by decide, by decide, by decide⟩

/-- Codes outside `[160, 160 + 96)` are not in the removed range. -/
theorem mem_rangeList_160 {c : ℕ} (h : c ∈ rangeList 0xa0 0xff) : 160 ≤ c ∧ c ≤ 255 := by
  have := List.mem_range'_1.mp h
  omega

/-- **C4** (corrected).  The claim says that with `unicode` disabled the
"remove 160-255" overlay step is skipped so those codes remain.  The code
does the opposite: disabling `unicode` performs
`setChars(range(0xa0, 0xff), true)` for every type (and the always-applied
forcing overlay removes the range for `isfname`/`isprint` anyway), so the
emitted class never contains a code of 160 and above; the Unicode tail is
indeed omitted. -/
theorem C4_no_unicode_removes_high_codes :
    (∀ (P : String) (t : Option PatternType) (s : List ℕ),
      computeCharSet P t false = .ok s → ∀ c ∈ s, c < 160) ∧
    (∀ (P : String) (t : Option PatternType),
      patternToCharClass P t false =
        (computeCharSet P t false).map fun s => "[" ++ classBody s ++ "]") := by
  constructor
  · intro P t s h c hc
    unfold computeCharSet at h
    rcases hA : parseCC P.data (P.data.length + 1) P.data 0 none [] with e | s1
    · rw [hA] at h
      simp [bind, Except.bind] at h
    rw [hA] at h
    simp only [bind, Except.bind] at h
    have bound1 : ∀ c ∈ s1, 1 ≤ c ∧ c ≤ 255 := by
      intro c hc
      rcases parseCC_mem P.data _ _ _ _ _ _ hA c hc with h' | h'
      · cases h'
      · exact h'
    have final :
        ∀ s2 : List ℕ, (∀ c ∈ s2, 1 ≤ c ∧ c ≤ 255) →
          setChars (rangeList 0xa0 0xff) true s2 = s → c < 160 := by
      intro s2 hb hx
      rw [← hx] at hc
      have hm := mem_setChars_del hc
      have := hb c hm.1
      have hnot : ¬(160 ≤ c ∧ c ≤ 255) := fun hcon => hm.2 (by
        simp only [rangeList, List.mem_range'_1]
        omega)
      omega
    match t with
    | none =>
      simp [pure, Except.pure] at h
      exact final s1 bound1 h
    | some .isident =>
      simp [pure, Except.pure,
        show (FORCE_CHAR_PATTERNS PatternType.isident).isEmpty = true from rfl] at h
      exact final s1 bound1 h
    | some .iskeyword =>
      simp [pure, Except.pure,
        show (FORCE_CHAR_PATTERNS PatternType.iskeyword).isEmpty = true from rfl] at h
      exact final s1 bound1 h
    | some .isfname =>
      simp only [pure, Except.pure,
        show (FORCE_CHAR_PATTERNS PatternType.isfname).isEmpty = false from rfl,
        Bool.false_eq_true, if_false] at h
      rcases hB : parseCC (FORCE_CHAR_PATTERNS .isfname).data
          ((FORCE_CHAR_PATTERNS .isfname).data.length + 1)
          (FORCE_CHAR_PATTERNS .isfname).data 0 none s1 with e2 | s2
      · rw [hB] at h
        simp at h
      · rw [hB] at h
        simp at h
        refine final s2 ?_ h
        intro c hc
        rcases parseCC_mem _ _ _ _ _ _ _ hB c hc with h' | h'
        · exact bound1 c h'
        · exact h'
    | some .isprint =>
      simp only [pure, Except.pure,
        show (FORCE_CHAR_PATTERNS PatternType.isprint).isEmpty = false from rfl,
        Bool.false_eq_true, if_false] at h
      rcases hB : parseCC (FORCE_CHAR_PATTERNS .isprint).data
          ((FORCE_CHAR_PATTERNS .isprint).data.length + 1)
          (FORCE_CHAR_PATTERNS .isprint).data 0 none s1 with e2 | s2
      · rw [hB] at h
        simp at h
      · rw [hB] at h
        simp at h
        refine final s2 ?_ h
        intro c hc
        rcases parseCC_mem _ _ _ _ _ _ _ hB c hc with h' | h'
        · exact bound1 c h'
        · exact h'
  · intro P t
    rfl

/-- **C4** witness: a concrete compilation with `unicode` disabled whose
surviving codes the theorem bounds below 160. -/
theorem C4_witness :
    computeCharSet "100,200" (some .isfname) false = .ok [100] ∧
    ∀ c ∈ ([100] : List ℕ), c < 160 := by
  refine ⟨by decide, fun c hc =>
    (C4_no_unicode_removes_high_codes).1 "100,200" (some .isfname) [100] (by decide) c hc⟩

/-- **C4** counterexample: `P = "200"` with type `isfname` and `unicode`
disabled yields the empty class `[]` — code 200 does *not* remain, contrary
to the claim (likewise for `isprint`). -/
theorem C4_counterexample :
    patternToCharClass "200" (some .isfname) false = .ok "[]" ∧
    patternToCharClass "200" (some .isprint) false = .ok "[\\x20-\\x7e]" ∧
    patternToCharClass "200" none false = .ok "[]" := by
  refine ⟨by decide, by decide, by decide⟩

/-- When the user's entries all parse, the whole set computation succeeds
(the forcing patterns always parse and the remaining steps are total). -/
theorem computeCharSet_ok_of_user (P : String) (t : Option PatternType) (u : Bool)
    (s1 : List ℕ)
    (hA : parseCC P.data (P.data.length + 1) P.data 0 none [] = .ok s1) :
    ∃ s', computeCharSet P t u = .ok s' := by
  unfold computeCharSet
  rw [hA]
  simp only [bind, Except.bind]
  match t with
  | none => exact ⟨_, rfl⟩
  | some .isident => exact ⟨_, rfl⟩
  | some .iskeyword => exact ⟨_, rfl⟩
  | some .isfname =>
    dsimp only
    rw [show (FORCE_CHAR_PATTERNS PatternType.isfname).isEmpty = false from rfl,
      if_neg (by simp)]
    obtain ⟨s2, hB⟩ := forceParse_ok .isfname s1
    rw [hB]
    exact ⟨_, rfl⟩
  | some .isprint =>
    dsimp only
    rw [show (FORCE_CHAR_PATTERNS PatternType.isprint).isEmpty = false from rfl,
      if_neg (by simp)]
    obtain ⟨s2, hB⟩ := forceParse_ok .isprint s1
    rw [hB]
    exact ⟨_, rfl⟩

/-- A successful compilation always returns a bracketed class string. -/
theorem patternToCharClass_ok_shape (P : String) (t : Option PatternType) (u : Bool)
    (s' : List ℕ) (h : computeCharSet P t u = .ok s') :
    ∃ body, patternToCharClass P t u = .ok ("[" ++ body ++ "]") := by
  unfold patternToCharClass
  rw [h]
  cases u
  · exact ⟨classBody s', rfl⟩
  · cases t with
    | none =>
      exact ⟨classBody s' ++ "", by simp [Except.map, String.append_assoc]⟩
    | some tt =>
      exact ⟨classBody s' ++ UNICODE_CHAR_CLASSES tt,
        by simp [Except.map, String.append_assoc]⟩

/-- **C7** (corrected).  `patternToCharClass` fails exactly where the sticky
entry scan of `P` flags a block: an entry whose range violates
`1 ≤ start ≤ end ≤ 255` raises `Invalid code range` at the entry's index, a
junk block raises `Invalid keyword` at its index, each as a
`CharClassSyntaxError` carrying `P` as `source`; otherwise a bracketed class
string is returned.  (The scan ends silently at a position where no block
can match — a residue beginning with a line terminator — so malformed text
there is ignored rather than reported; see the counterexample.) -/
theorem C7_error_exactly_at_scan_failure (P : String) (t : Option PatternType) (u : Bool) :
    match firstBadEntry (scanCC (P.data.length + 1) P.data 0 none).1 with
    | some j => patternToCharClass P t u = .error ⟨.invalidCodeRange, P.data, j⟩
    | none =>
      match (scanCC (P.data.length + 1) P.data 0 none).2 with
      | some k => patternToCharClass P t u = .error ⟨.invalidKeyword, P.data, k⟩
      | none => ∃ body, patternToCharClass P t u = .ok ("[" ++ body ++ "]") := by
  have hsplit := parseCC_split P.data (P.data.length + 1) P.data 0 none []
  rcases hfb : firstBadEntry (scanCC (P.data.length + 1) P.data 0 none).1 with _ | j
  case some =>
    simp only
    rw [hfb] at hsplit
    unfold patternToCharClass computeCharSet
    rw [hsplit]
    rfl
  case none =>
    rw [hfb] at hsplit
    rcases hjk : (scanCC (P.data.length + 1) P.data 0 none).2 with _ | k
    case some =>
      simp only
      rw [hjk] at hsplit
      unfold patternToCharClass computeCharSet
      rw [hsplit]
      rfl
    case none =>
      simp only
      rw [hjk] at hsplit
      dsimp only at hsplit
      obtain ⟨s', h'⟩ := computeCharSet_ok_of_user P t u _ hsplit
      exact patternToCharClass_ok_shape P t u s' h'

/-- **C7** counterexample: `P = "\n0-999"` contains the range `0-999`, which
violates `1 ≤ start ≤ end ≤ 255` — the very same text alone raises
`Invalid code range` — yet the function returns `[]` without raising,
because the sticky scan stops silently at the leading line terminator.  So
the claimed "exactly when some range of `P` violates the bounds" is false. -/
theorem C7_counterexample :
    patternToCharClass "\n0-999" none true = .ok "[]" ∧
    patternToCharClass "0-999" none true =
      .error ⟨.invalidCodeRange, "0-999".data, 0⟩ ∧
    patternToCharClass "\na" none true = .ok "[]" := by
  refine ⟨by decide, by decide, by decide⟩

/-! ## Lemmas about the transpiler's flag handling -/

/-- Membership after one flag-union step. -/
theorem mem_addFlag {c a : Char} {acc : List Char} :
    c ∈ addFlag acc a ↔ c ∈ acc ∨ c = a := by
  unfold addFlag
  split
  · rename_i hmem
    constructor
    · exact Or.inl
    · rintro (h | rfl)
      · exact h
      · exact hmem
  · simp

/-- Membership in the folded flag union. -/
theorem mem_foldl_addFlag (adds : List Char) :
    ∀ (acc : List Char) (c : Char),
      c ∈ adds.foldl addFlag acc ↔ c ∈ acc ∨ c ∈ adds := by
  induction adds with
  | nil => simp
  | cons a as ih =>
    intro acc c
    rw [List.foldl_cons, ih, mem_addFlag]
    simp
    tauto

/-- A successful compilation's flags are the union of the caller's flags
with the internal additions. -/
theorem parseVimPattern_flags (src : String) (opts : VimRegExpOptions)
    (res : CompileResult) (h : parseVimPattern src opts = .ok res) :
    ∃ ic, res.flags = mkFlags opts.flags ic ∧ hasFlagMU opts.flags = false ∧
      compiledIgnoreCase src opts = some ic := by
  unfold parseVimPattern at h
  split at h
  · cases h
  · rename_i hmu
    split at h
    · rename_i hmag
      dsimp only at h
      split at h
      · cases h
      · rename_i st hst
        cases h
        refine ⟨_, rfl, by simpa using hmu, ?_⟩
        unfold compiledIgnoreCase
        rw [if_neg hmu]
        dsimp only
        rw [if_pos hmag, hst]
    · rename_i hmag
      dsimp only at h
      split at h
      · cases h
      · rename_i st hst
        cases h
        refine ⟨_, rfl, by simpa using hmu, ?_⟩
        unfold compiledIgnoreCase
        rw [if_neg hmu]
        dsimp only
        rw [if_neg hmag, hst]

/-- Counts are unchanged by the flag union for characters the accumulator
already holds: `addFlag` only ever appends a character that is absent. -/
theorem count_foldl_addFlag (adds : List Char) :
    ∀ (acc : List Char) (c : Char), c ∈ acc →
      (adds.foldl addFlag acc).count c = acc.count c := by
  induction adds with
  | nil => intro acc c _; rfl
  | cons a as ih =>
    intro acc c hc
    rw [List.foldl_cons, ih (addFlag acc a) c (mem_addFlag.mpr (Or.inl hc))]
    unfold addFlag
    split
    · rfl
    · rename_i hna
      have hne : c ∉ [a] := by
        simp only [List.mem_singleton]
        exact fun h => hna (h ▸ hc)
      rw [List.count_append, List.count_eq_zero.mpr hne, Nat.add_zero]

/-- **C6** (confirmed).  The final flag string always contains `s` and `v`,
appended only when the caller did not already pass them — for a character
already among the caller's flags the union never adds another copy — and it
never contains `m` or `u`; an options bundle whose flags contain `m` or `u`
is rejected with `Invalid flags` before any parsing. -/
theorem C6_flag_invariant :
    (∀ (src : String) (opts : VimRegExpOptions) (res : CompileResult),
      parseVimPattern src opts = .ok res →
      's' ∈ res.flags.data ∧ 'v' ∈ res.flags.data ∧
      'm' ∉ res.flags.data ∧ 'u' ∉ res.flags.data) ∧
    (∀ (src : String) (opts : VimRegExpOptions) (res : CompileResult)
      (c : Char), parseVimPattern src opts = .ok res →
      c ∈ opts.flags.data →
      res.flags.data.count c = opts.flags.data.count c) ∧
    (∀ (src : String) (opts : VimRegExpOptions),
      ('m' ∈ opts.flags.data ∨ 'u' ∈ opts.flags.data) →
      parseVimPattern src opts = .error ⟨.invalidFlags opts.flags, 0⟩) ∧
    parseVimPattern "a" { defaultOptions with flags := "sv" } =
      .ok ⟨"a", "sv"⟩ ∧
    parseVimPattern "a" { defaultOptions with flags := "gvs" } =
      .ok ⟨"a", "gvs"⟩ := by
  refine ⟨?_, ?_, ?_, by decide, by decide⟩
  · intro src opts res h
    obtain ⟨ic, hflags, hmu, hic⟩ := parseVimPattern_flags src opts res h
    have hmu' : ∀ c ∈ opts.flags.data, ¬(c = 'm' ∨ c = 'u') := by
      intro c hc
      intro hcon
      have hT : hasFlagMU opts.flags = true := by
        unfold hasFlagMU
        rw [List.any_eq_true]
        exact ⟨c, hc, by simpa using hcon⟩
      rw [hmu] at hT
      cases hT
    have key : ∀ c : Char, c ∈ res.flags.data ↔
        c ∈ opts.flags.data ∨
          c ∈ (("sv" ++ if ic then "i" else "").data) := by
      intro c
      rw [hflags]
      exact mem_foldl_addFlag _ _ c
    refine ⟨?_, ?_, ?_, ?_⟩
    · exact (key 's').mpr (Or.inr (by cases ic <;> decide))
    · exact (key 'v').mpr (Or.inr (by cases ic <;> decide))
    · intro hc
      rcases (key 'm').mp hc with h' | h'
      · exact hmu' 'm' h' (Or.inl rfl)
      · revert h'
        cases ic <;> decide
    · intro hc
      rcases (key 'u').mp hc with h' | h'
      · exact hmu' 'u' h' (Or.inr rfl)
      · revert h'
        cases ic <;> decide
  · intro src opts res c h hc
    obtain ⟨ic, hflags, _, _⟩ := parseVimPattern_flags src opts res h
    rw [hflags]
    exact count_foldl_addFlag _ _ c hc
  · intro src opts hmu
    unfold parseVimPattern
    rw [if_pos ?hpos]
    case hpos =>
      unfold hasFlagMU
      rw [List.any_eq_true]
      rcases hmu with h | h
      · exact ⟨'m', h, by decide⟩
      · exact ⟨'u', h, by decide⟩

/-- **C6** witness: membership, exact count (no duplication of a caller's
`s`) and a concrete rejection. -/
theorem C6_witness :
    ('s' ∈ ("sv" : String).data ∧ 'v' ∈ ("sv" : String).data ∧
      'm' ∉ ("sv" : String).data ∧ 'u' ∉ ("sv" : String).data) ∧
    (⟨"a", "sv"⟩ : CompileResult).flags.data.count 's' =
      ({ defaultOptions with flags := "sv" } :
        VimRegExpOptions).flags.data.count 's' ∧
    parseVimPattern "a" { defaultOptions with flags := "mi" } =
      .error ⟨.invalidFlags "mi", 0⟩ := by
  refine ⟨?_, ?_, ?_⟩
  · exact C6_flag_invariant.1 "a" defaultOptions ⟨"a", "sv"⟩ (by decide)
  · exact C6_flag_invariant.2.1 "a" { defaultOptions with flags := "sv" }
      ⟨"a", "sv"⟩ 's' (by decide) (by decide)
  · exact C6_flag_invariant.2.2.1 "a" { defaultOptions with flags := "mi" }
      (Or.inl (by decide))

/-- **C8** (corrected).  The claim says the named accessors mirror only the
caller's flags, `ignoreCase` reporting `false` when ignore-case is merely
internal.  `VimRegExp` passes the *final* flags (with the internal `s`, `v`,
`i`) to `super`, and the inherited host getters read those:
`hasIndices`/`global`/`sticky` still coincide with the caller's flags
because the internal additions are only ever `s`, `v` and `i`, but
`ignoreCase` is `true` exactly when the caller passed `i` or the
compilation's final internal ignore-case state — seeded by the
`ignorecase`/`smartcase` options and toggled by `\c`/`\C` — is on. -/
theorem C8_accessors :
    (∀ (p : String) (opts : VimRegExpOptions) (w : VimRegExpModel),
      mkVimRegExp p opts = .ok w →
      (w.hasIndices = true ↔ 'd' ∈ opts.flags.data) ∧
      (w.global = true ↔ 'g' ∈ opts.flags.data) ∧
      (w.sticky = true ↔ 'y' ∈ opts.flags.data) ∧
      (w.ignoreCase = true ↔
        ('i' ∈ opts.flags.data ∨ compiledIgnoreCase p opts = some true))) ∧
    (mkVimRegExp "foo" { defaultOptions with ignorecase := true }).map
      VimRegExpModel.ignoreCase = .ok true ∧
    (mkVimRegExp "\\cfoo" defaultOptions).map VimRegExpModel.ignoreCase =
      .ok true ∧
    (mkVimRegExp "\\Cfoo" { defaultOptions with ignorecase := true }).map
      VimRegExpModel.ignoreCase = .ok false ∧
    (mkVimRegExp "Foo"
      { defaultOptions with ignorecase := true, smartcase := true }).map
      VimRegExpModel.ignoreCase = .ok false ∧
    (mkVimRegExp "foo"
      { defaultOptions with ignorecase := true, smartcase := true }).map
      VimRegExpModel.ignoreCase = .ok true := by
  refine ⟨?_, by decide, by decide, by decide, by decide, by decide⟩
  intro p opts w h
  unfold mkVimRegExp at h
  rcases hp : parseVimPattern p opts with e | r
  · rw [hp] at h
    simp [Except.map] at h
  rw [hp] at h
  simp only [Except.map, Except.ok.injEq] at h
  obtain ⟨ic, hflags, _, hic⟩ := parseVimPattern_flags p opts r hp
  have hwf : w.flags = mkFlags opts.flags ic := by
    rw [← h, hflags]
  have key : ∀ c : Char, c ∈ w.flags.data ↔
      c ∈ opts.flags.data ∨ c ∈ (("sv" ++ if ic then "i" else "").data) := by
    intro c
    rw [hwf]
    exact mem_foldl_addFlag _ _ c
  refine ⟨?_, ?_, ?_, ?_⟩
  · unfold VimRegExpModel.hasIndices
    rw [decide_eq_true_iff, key 'd']
    constructor
    · rintro (h' | h')
      · exact h'
      · exact absurd h' (by cases ic <;> decide)
    · exact Or.inl
  · unfold VimRegExpModel.global
    rw [decide_eq_true_iff, key 'g']
    constructor
    · rintro (h' | h')
      · exact h'
      · exact absurd h' (by cases ic <;> decide)
    · exact Or.inl
  · unfold VimRegExpModel.sticky
    rw [decide_eq_true_iff, key 'y']
    constructor
    · rintro (h' | h')
      · exact h'
      · exact absurd h' (by cases ic <;> decide)
    · exact Or.inl
  · unfold VimRegExpModel.ignoreCase
    rw [decide_eq_true_iff, key 'i']
    constructor
    · rintro (h' | h')
      · exact Or.inl h'
      · right
        have hict : ic = true := by
          cases ic
          · exact absurd h' (by decide)
          · rfl
        rw [hic, hict]
    · rintro (h' | h')
      · exact Or.inl h'
      · right
        rw [hic] at h'
        have hict : ic = true := by
          injection h'
        rw [hict]
        decide
/-- **C8** witness: the `ignoreCase` equivalence at a concrete construction
whose ignore-case comes from the `ignorecase` option alone. -/
theorem C8_witness :
    ((⟨"foo", "foo", "svi", { defaultOptions with ignorecase := true }⟩ :
        VimRegExpModel).ignoreCase = true ↔
      ('i' ∈ ({ defaultOptions with ignorecase := true } :
          VimRegExpOptions).flags.data ∨
        compiledIgnoreCase "foo" { defaultOptions with ignorecase := true } =
          some true)) := by
  exact (C8_accessors.1 "foo" { defaultOptions with ignorecase := true }
    ⟨"foo", "foo", "svi", { defaultOptions with ignorecase := true }⟩
    (by decide)).2.2.2

/-- **C8** counterexample: with `\c` in the pattern and no caller `i` flag,
ignore-case is in force only internally, yet the `ignoreCase` accessor
reports `true` (the final flags are `svi`), contradicting the claim that it
reports `false`. -/
theorem C8_counterexample :
    (mkVimRegExp "\\cfoo" defaultOptions).map VimRegExpModel.ignoreCase =
      .ok true ∧
    'i' ∉ defaultOptions.flags.data ∧
    (mkVimRegExp "\\cfoo" defaultOptions).map (fun w => w.flags) =
      .ok "svi" := by
  refine ⟨by decide, by decide, by decide⟩

/-- **C2** (corrected).  An unescaped `^` at magic level at most nomagic
(escaped `\^` at very-nomagic) is special exactly when the current concat
segment is empty — at the start of the pattern or right after `\|`, `\(`,
`\%(` or `\&` — in which case it emits the anchor `(?:^|(?<=\n))`
(respectively bare `^` under stringMatch); but right after a `\n` token the
segment is *not* empty and the compiler emits the empty group `(?:)`
(respectively `^`), not the anchor the claim states; in any other non-empty
segment it emits the literal `\^`. -/
theorem C2_caret_contexts :
    (∀ (opts : VimRegExpOptions) (st : PState) (l : List Char) (p : ℕ),
      st.magic ≤ NOMAGIC →
      step opts st ('^' :: l) p =
        (if st.hasAtom then
          if st.buf.getLast? = some "\n" ∨ st.buf.getLast? = some "\\n" ∨
              st.buf.getLast? = some "\\x0a" then
            .cont (st.push (if opts.stringMatch then "^" else "(?:)")) l (p + 1)
          else .cont (st.push "\\^") l (p + 1)
        else
          .cont (st.push (if opts.stringMatch then "^" else "(?:^|(?<=\\n))"))
            l (p + 1))) ∧
    (∀ (opts : VimRegExpOptions) (st : PState) (l : List Char) (p : ℕ),
      VERY_NOMAGIC ≤ st.magic →
      step opts st ('\\' :: '^' :: l) p =
        (if st.hasAtom then
          if st.buf.getLast? = some "\n" ∨ st.buf.getLast? = some "\\n" ∨
              st.buf.getLast? = some "\\x0a" then
            .cont (st.push (if opts.stringMatch then "^" else "(?:)")) l (p + 2)
          else .cont (st.push "\\^") l (p + 2)
        else
          .cont (st.push (if opts.stringMatch then "^" else "(?:^|(?<=\\n))"))
            l (p + 2))) ∧
    parseVimPattern "^a" defaultOptions = .ok ⟨"(?:^|(?<=\\n))a", "sv"⟩ ∧
    parseVimPattern "a\\|^b" defaultOptions = .ok ⟨"a|(?:^|(?<=\\n))b", "sv"⟩ ∧
    parseVimPattern "\\(^a\\)" defaultOptions = .ok ⟨"((?:^|(?<=\\n))a)", "sv"⟩ ∧
    parseVimPattern "a\\&^b" defaultOptions = .ok ⟨"(?=a)(?:^|(?<=\\n))b", "sv"⟩ ∧
    parseVimPattern "a^b" defaultOptions = .ok ⟨"a\\^b", "sv"⟩ ∧
    parseVimPattern "^a" { defaultOptions with stringMatch := true } =
      .ok ⟨"^a", "sv"⟩ := by
  refine ⟨?_, ?_, by decide, by decide, by decide, by decide, by decide, by decide⟩
  · intro opts st l p hmag
    have hred : step opts st ('^' :: l) p =
        (if st.magic ≤ NOMAGIC then
          if st.hasAtom then
            if st.buf.getLast? = some "\n" ∨ st.buf.getLast? = some "\\n" ∨
                st.buf.getLast? = some "\\x0a" then
              .cont (st.push (if opts.stringMatch then "^" else "(?:)")) l (p + 1)
            else .cont (st.push "\\^") l (p + 1)
          else
            .cont (st.push (if opts.stringMatch then "^" else "(?:^|(?<=\\n))"))
              l (p + 1)
        else .cont (st.push "\\^") l (p + 1)) := rfl
    rw [hred, if_pos hmag]
  · intro opts st l p hmag
    have hred : step opts st ('\\' :: '^' :: l) p =
        (if VERY_NOMAGIC ≤ st.magic then
          if st.hasAtom then
            if st.buf.getLast? = some "\n" ∨ st.buf.getLast? = some "\\n" ∨
                st.buf.getLast? = some "\\x0a" then
              .cont (st.push (if opts.stringMatch then "^" else "(?:)")) l (p + 2)
            else .cont (st.push "\\^") l (p + 2)
          else
            .cont (st.push (if opts.stringMatch then "^" else "(?:^|(?<=\\n))"))
              l (p + 2)
        else .cont (st.push "\\^") l (p + 2)) := rfl
    rw [hred, if_pos hmag]

/-- **C2** witness: the bare-caret rule applied at the initial state. -/
theorem C2_witness :
    step defaultOptions ⟨MAGIC, false, [], [], none, [0], none⟩ ['^'] 0 =
      .cont (PState.push ⟨MAGIC, false, [], [], none, [0], none⟩ "(?:^|(?<=\\n))")
        [] 1 := by
  have h := C2_caret_contexts.1 defaultOptions
    ⟨MAGIC, false, [], [], none, [0], none⟩ [] 0 (by decide)
  exact h.trans (by decide)

/-- **C2** counterexample: right after a `\n` token, `^` is special but
emits the empty group `(?:)`, not the claimed anchor `(?:^|(?<=\n))`. -/
theorem C2_counterexample :
    parseVimPattern "\\n^a" defaultOptions = .ok ⟨"\\n(?:)a", "sv"⟩ ∧
    ("\\n(?:)a" : String) ≠ "\\n(?:^|(?<=\\n))a" := by
  refine ⟨by decide, by decide⟩

/-- **C9** (corrected).  At magic level at least MAGIC, `\&` retroactively
wraps the concat segment that began at the last recorded concat index in a
positive lookahead: `(?=` is spliced in at that index and `)` appended, and
the concat index is reset past the wrapped text.  The claim's concrete
example is doubly wrong: `foo\&..x` compiles to `(?=foo)[^\n][^\n]x`, not
`(?=foo)..x`, because each `.` emits `[^\n]`; and that compiled regex is
unsatisfiable — the lookahead forces an `o` at the very offset where the
trailing `x` must match — so it matches neither "foox" nor anything else. -/
theorem C9_branch_lookahead :
    (∀ (opts : VimRegExpOptions) (st : PState) (l : List Char) (p : ℕ),
      MAGIC ≤ st.magic →
      step opts st ('\\' :: '&' :: l) p =
        (let st' := st.correctDollar
         let k := st'.concatIdx.getLast?.getD 0
         let buf' := (st'.buf.take k ++ ["(?="] ++ st'.buf.drop k) ++ [")"]
         .cont
           { st' with
             buf := buf',
             concatIdx := st'.concatIdx.dropLast ++ [buf'.length] } l (p + 2))) ∧
    parseVimPattern "foo\\&..x" defaultOptions =
      .ok ⟨"(?=foo)[^\\n][^\\n]x", "sv"⟩ := by
  constructor
  · intro opts st l p hmag
    have hred : step opts st ('\\' :: '&' :: l) p =
        (if MAGIC ≤ st.magic then
          (let st' := st.correctDollar
           let k := st'.concatIdx.getLast?.getD 0
           let buf' := (st'.buf.take k ++ ["(?="] ++ st'.buf.drop k) ++ [")"]
           .cont
             { st' with
               buf := buf',
               concatIdx := st'.concatIdx.dropLast ++ [buf'.length] } l (p + 2))
        else .cont (st.push "&") l (p + 2)) := rfl
    rw [hred, if_pos hmag]
  · decide

/-- **C9** witness: the lookahead splice at a concrete state holding the
segment `foo`. -/
theorem C9_witness :
    step defaultOptions ⟨MAGIC, false, ["foo"], [], none, [0], none⟩
        ['\\', '&'] 0 =
      .cont ⟨MAGIC, false, ["(?=", "foo", ")"], [], none, [3], none⟩ [] 2 := by
  have h := C9_branch_lookahead.1 defaultOptions
    ⟨MAGIC, false, ["foo"], [], none, [0], none⟩ [] 0 (by decide)
  exact h.trans (by decide)

/-- **C9** counterexample: the claimed host source for `foo\&..x`. -/
theorem C9_counterexample :
    parseVimPattern "foo\\&..x" defaultOptions =
      .ok ⟨"(?=foo)[^\\n][^\\n]x", "sv"⟩ ∧
    ("(?=foo)[^\\n][^\\n]x" : String) ≠ "(?=foo)..x" := by
  refine ⟨by decide, by decide⟩

/-- **C10** (corrected).  `<` and `>` outside a collection are translated to
the iskeyword word-boundary assertions at every magic level, with or without
a preceding backslash — that much the claim gets right — but a literal `<`
or `>` *can* still be expressed outside a collection, e.g. by the decimal
code atom `\%d60`, which compiles to `\x3c`. -/
theorem C10_angle_boundary :
    ∀ (opts : VimRegExpOptions) (st : PState) (l : List Char) (p : ℕ)
      (w : String), getCharClass opts .iskeyword = .ok w →
      step opts st ('<' :: l) p =
        .cont (st.push ("(?<!" ++ w ++ ")(?=" ++ w ++ ")")) l (p + 1) ∧
      step opts st ('\\' :: '<' :: l) p =
        .cont (st.push ("(?<!" ++ w ++ ")(?=" ++ w ++ ")")) l (p + 2) ∧
      step opts st ('>' :: l) p =
        .cont (st.push ("(?<=" ++ w ++ ")(?!" ++ w ++ ")")) l (p + 1) ∧
      step opts st ('\\' :: '>' :: l) p =
        .cont (st.push ("(?<=" ++ w ++ ")(?!" ++ w ++ ")")) l (p + 2) := by
  intro opts st l p w hw
  refine ⟨?_, ?_, ?_, ?_⟩
  · have hred : step opts st ('<' :: l) p =
        (match getCharClass opts .iskeyword with
        | .error e => .err e
        | .ok w' => .cont (st.push ("(?<!" ++ w' ++ ")(?=" ++ w' ++ ")"))
            l (p + 1)) := rfl
    rw [hred, hw]
  · have hred : step opts st ('\\' :: '<' :: l) p =
        (match getCharClass opts .iskeyword with
        | .error e => .err e
        | .ok w' => .cont (st.push ("(?<!" ++ w' ++ ")(?=" ++ w' ++ ")"))
            l (p + 2)) := rfl
    rw [hred, hw]
  · have hred : step opts st ('>' :: l) p =
        (match getCharClass opts .iskeyword with
        | .error e => .err e
        | .ok w' => .cont (st.push ("(?<=" ++ w' ++ ")(?!" ++ w' ++ ")"))
            l (p + 1)) := rfl
    rw [hred, hw]
  · have hred : step opts st ('\\' :: '>' :: l) p =
        (match getCharClass opts .iskeyword with
        | .error e => .err e
        | .ok w' => .cont (st.push ("(?<=" ++ w' ++ ")(?!" ++ w' ++ ")"))
            l (p + 2)) := rfl
    rw [hred, hw]

/-- **C10** witness: the boundary translation at a concrete options bundle
with `iskeyword = "97"` and the nomagic initial state. -/
theorem C10_witness :
    step { defaultOptions with iskeyword := "97" }
        ⟨NOMAGIC, false, [], [], none, [0], none⟩ ['<'] 0 =
      .cont (PState.push ⟨NOMAGIC, false, [], [], none, [0], none⟩
        ("(?<!" ++ "[\\x61[[\\p\x7bL\x7d\\p\x7bN\x7d\\p\x7bEmoji\x7d]--[\\x00-\\xff]]]" ++ ")(?=" ++ "[\\x61[[\\p\x7bL\x7d\\p\x7bN\x7d\\p\x7bEmoji\x7d]--[\\x00-\\xff]]]" ++ ")")) [] 1 := by
  exact (C10_angle_boundary { defaultOptions with iskeyword := "97" }
    ⟨NOMAGIC, false, [], [], none, [0], none⟩ [] 0 "[\\x61[[\\p\x7bL\x7d\\p\x7bN\x7d\\p\x7bEmoji\x7d]--[\\x00-\\xff]]]" (by decide)).1

/-- **C10** counterexample: `\%d60` compiles to the literal escape `\x3c`,
i.e. a literal `<` outside a collection. -/
theorem C10_counterexample :
    parseVimPattern "\\%d60" defaultOptions = .ok ⟨"\\x3c", "sv"⟩ ∧
    parseVimPattern "\\%d62" defaultOptions = .ok ⟨"\\x3e", "sv"⟩ := by
  refine ⟨by decide, by decide⟩

/-- **C3** (corrected).  `\+`, `\=`, `\?` and `\{` in metacharacter form
(escaped at magic level at least MAGIC, bare at very-magic) with no
preceding atom in the current concat segment fail with "Nothing to repeat",
for every pattern continuation and state — but the star never does: the bare
star's gate conjoins the magic test with `hasAtom`, so an atomless `*` falls
through to the literal `\*` at every magic level and the transpiler
succeeds; the escaped `\*` at nomagic or very-nomagic has no atom check at
all and emits a bare `*` even with nothing to repeat, leaving its rejection
to the host `RegExp` constructor. -/
theorem C3_nothing_to_repeat :
    (∀ (opts : VimRegExpOptions) (st : PState) (l : List Char) (p : ℕ),
      st.hasAtom = false →
      (MAGIC ≤ st.magic →
        step opts st ('\\' :: '+' :: l) p =
          .err ⟨.nothingToRepeat "\\+", p⟩ ∧
        step opts st ('\\' :: '=' :: l) p =
          .err ⟨.nothingToRepeat "\\=", p⟩ ∧
        step opts st ('\\' :: '?' :: l) p =
          .err ⟨.nothingToRepeat "\\?", p⟩ ∧
        step opts st ('\\' :: braceL :: l) p =
          .err ⟨.nothingToRepeat "\\\x7b", p⟩) ∧
      (st.magic ≤ VERY_MAGIC →
        step opts st ('+' :: l) p = .err ⟨.nothingToRepeat "+", p⟩ ∧
        step opts st ('=' :: l) p = .err ⟨.nothingToRepeat "=", p⟩ ∧
        step opts st ('?' :: l) p = .err ⟨.nothingToRepeat "?", p⟩ ∧
        step opts st (braceL :: l) p = .err ⟨.nothingToRepeat "\x7b", p⟩) ∧
      step opts st ('*' :: l) p = .cont (st.push "\\*") l (p + 1)) ∧
    (∀ (opts : VimRegExpOptions) (st : PState) (l : List Char) (p : ℕ),
      NOMAGIC ≤ st.magic →
      step opts st ('\\' :: '*' :: l) p = .cont (st.push "*") l (p + 2)) ∧
    parseVimPattern "*" defaultOptions = .ok ⟨"\\*", "sv"⟩ ∧
    parseVimPattern "\\*" { defaultOptions with magic := false } =
      .ok ⟨"*", "sv"⟩ ∧
    parseVimPattern "\\+" defaultOptions =
      .error ⟨.nothingToRepeat "\\+", 0⟩ ∧
    parseVimPattern "\\{2,3}" defaultOptions =
      .error ⟨.nothingToRepeat "\\\x7b", 0⟩ ∧
    parseVimPattern "\\v+" defaultOptions =
      .error ⟨.nothingToRepeat "+", 2⟩ ∧
    parseVimPattern "a\\|\\+b" defaultOptions =
      .error ⟨.nothingToRepeat "\\+", 3⟩ ∧
    parseVimPattern "x*" defaultOptions = .ok ⟨"x*", "sv"⟩ ∧
    parseVimPattern "x\\+" defaultOptions = .ok ⟨"x+", "sv"⟩ := by
  refine ⟨?_, ?_, by decide, by decide, by decide, by decide, by decide,
    by decide, by decide, by decide⟩
  · intro opts st l p hatom
    have hna : ¬(st.hasAtom = true) := by simp [hatom]
    refine ⟨?_, ?_, ?_⟩
    · intro hmag
      refine ⟨?_, ?_, ?_, ?_⟩
      · have hred : step opts st ('\\' :: '+' :: l) p =
            (if MAGIC ≤ st.magic then
              if st.hasAtom then .cont (st.push "+") l (p + 2)
              else .err ⟨.nothingToRepeat "\\+", p⟩
            else .cont (st.push "\\+") l (p + 2)) := rfl
        rw [hred, if_pos hmag, if_neg hna]
      · have hred : step opts st ('\\' :: '=' :: l) p =
            (if MAGIC ≤ st.magic then
              if st.hasAtom then .cont (st.push "?") l (p + 2)
              else .err ⟨.nothingToRepeat "\\=", p⟩
            else .cont (st.push "=") l (p + 2)) := rfl
        rw [hred, if_pos hmag, if_neg hna]
      · have hred : step opts st ('\\' :: '?' :: l) p =
            (if MAGIC ≤ st.magic then
              if st.hasAtom then .cont (st.push "?") l (p + 2)
              else .err ⟨.nothingToRepeat "\\?", p⟩
            else .cont (st.push "\\?") l (p + 2)) := rfl
        rw [hred, if_pos hmag, if_neg hna]
      · have hred : step opts st ('\\' :: braceL :: l) p =
            (if MAGIC ≤ st.magic then
              if st.hasAtom then
                match parseBraceBounds l with
                | some (b, n, rest') =>
                  .cont (st.push (braceEmit b)) rest' (p + 2 + n)
                | none => .err ⟨.invalidKeyword "", p⟩
              else .err ⟨.nothingToRepeat "\\\x7b", p⟩
            else .cont (st.push "\\\x7b") l (p + 2)) := rfl
        rw [hred, if_pos hmag, if_neg hna]
    · intro hmag
      refine ⟨?_, ?_, ?_, ?_⟩
      · have hred : step opts st ('+' :: l) p =
            (if st.magic ≤ VERY_MAGIC then
              if st.hasAtom then .cont (st.push "+") l (p + 1)
              else .err ⟨.nothingToRepeat "+", p⟩
            else .cont (st.push "\\+") l (p + 1)) := rfl
        rw [hred, if_pos hmag, if_neg hna]
      · have hred : step opts st ('=' :: l) p =
            (if st.magic ≤ VERY_MAGIC then
              if st.hasAtom then .cont (st.push "?") l (p + 1)
              else .err ⟨.nothingToRepeat "=", p⟩
            else .cont (st.push "=") l (p + 1)) := rfl
        rw [hred, if_pos hmag, if_neg hna]
      · have hred : step opts st ('?' :: l) p =
            (if st.magic ≤ VERY_MAGIC then
              if st.hasAtom then .cont (st.push "?") l (p + 1)
              else .err ⟨.nothingToRepeat "?", p⟩
            else .cont (st.push "\\?") l (p + 1)) := rfl
        rw [hred, if_pos hmag, if_neg hna]
      · have hred : step opts st (braceL :: l) p =
            (if st.magic ≤ VERY_MAGIC then
              if st.hasAtom then
                match parseBraceBounds l with
                | some (b, n, rest') =>
                  .cont (st.push (braceEmit b)) rest' (p + 1 + n)
                | none => .err ⟨.invalidKeyword "", p⟩
              else .err ⟨.nothingToRepeat "\x7b", p⟩
            else .cont (st.push "\\\x7b") l (p + 1)) := rfl
        rw [hred, if_pos hmag, if_neg hna]
    · have hns : ¬(st.magic ≤ MAGIC ∧ st.hasAtom = true) := by simp [hatom]
      have hred : step opts st ('*' :: l) p =
          (if st.magic ≤ MAGIC ∧ st.hasAtom = true then
            .cont (st.push "*") l (p + 1)
          else .cont (st.push "\\*") l (p + 1)) := rfl
      rw [hred, if_neg hns]
  · intro opts st l p hmag
    have hred : step opts st ('\\' :: '*' :: l) p =
        (if NOMAGIC ≤ st.magic then .cont (st.push "*") l (p + 2)
        else .cont (st.push "\\*") l (p + 2)) := rfl
    rw [hred, if_pos hmag]

/-- **C3** witness: the atomless `\+` rule and the atomless-star fallback at
the initial magic state. -/
theorem C3_witness :
    step defaultOptions ⟨MAGIC, false, [], [], none, [0], none⟩ ['\\', '+'] 0 =
      .err ⟨.nothingToRepeat "\\+", 0⟩ ∧
    step defaultOptions ⟨MAGIC, false, [], [], none, [0], none⟩ ['*'] 0 =
      .cont (PState.push ⟨MAGIC, false, [], [], none, [0], none⟩ "\\*") [] 1 := by
  constructor
  · exact ((C3_nothing_to_repeat.1 defaultOptions
      ⟨MAGIC, false, [], [], none, [0], none⟩ [] 0 (by decide)).1
      (by decide)).1
  · exact (C3_nothing_to_repeat.1 defaultOptions
      ⟨MAGIC, false, [], [], none, [0], none⟩ [] 0 (by decide)).2.2

/-- **C3** counterexample: a bare `*` with nothing to repeat compiles
successfully (to the literal `\*`) instead of failing as the claim states. -/
theorem C3_counterexample :
    parseVimPattern "*" defaultOptions = .ok ⟨"\\*", "sv"⟩ ∧
    ∀ e, parseVimPattern "*" defaultOptions ≠ .error e := by
  refine ⟨by decide, ?_⟩
  intro e h
  rw [show parseVimPattern "*" defaultOptions = .ok ⟨"\\*", "sv"⟩ from by decide]
    at h
  cases h

/-- The digit run before a `,` is the whole run: appending a list whose head
is not a digit does not extend a `takeWhile Char.isDigit` over an all-digit
prefix. -/
theorem takeWhile_digits_append (ds : List Char) (c : Char) (r : List Char)
    (hd : ∀ x ∈ ds, x.isDigit = true) (hc : c.isDigit = false) :
    (ds ++ (c :: r)).takeWhile Char.isDigit = ds := by
  induction ds with
  | nil => simp [List.takeWhile_cons, hc]
  | cons d ds ih =>
    have hdd : d.isDigit = true := hd d (by simp)
    simp [List.takeWhile_cons, hdd, ih (fun x hx => hd x (by simp [hx]))]

/-- The bound scanner on a fully explicit `[-]min,max}` input: both digit
groups are captured, the lazy flag follows the leading `-`, and the consumed
length covers everything up to and including the closing brace. -/
theorem parseBraceBounds_full (lz : Bool) (ds1 ds2 rest : List Char)
    (h1 : ds1 ≠ []) (h2 : ds2 ≠ [])
    (hd1 : ∀ c ∈ ds1, c.isDigit = true) (hd2 : ∀ c ∈ ds2, c.isDigit = true) :
    parseBraceBounds ((if lz then ['-'] else []) ++
        (ds1 ++ (',' :: (ds2 ++ (braceR :: rest))))) =
      some (⟨lz, some ds1, true, some ds2⟩,
        (if lz then 1 else 0) + ds1.length + 1 + ds2.length + 1, rest) := by
  obtain ⟨d, ds1', rfl⟩ : ∃ d ds1', ds1 = d :: ds1' := by
    cases ds1
    · exact absurd rfl h1
    · exact ⟨_, _, rfl⟩
  have hdd : d.isDigit = true := hd1 d (by simp)
  have hdneg : ¬(d = '-') := by
    intro h
    rw [h] at hdd
    exact absurd hdd (by decide)
  have hE2 : ds2.isEmpty = false := by
    cases ds2
    · exact absurd rfl h2
    · rfl
  have hTW1 : List.takeWhile Char.isDigit
      (d :: (ds1' ++ (',' :: (ds2 ++ (braceR :: rest))))) = d :: ds1' := by
    have h := takeWhile_digits_append (d :: ds1') ','
      (ds2 ++ (braceR :: rest)) hd1 (by decide)
    simpa using h
  have hTW2 := takeWhile_digits_append ds2 braceR rest hd2 (by decide)
  cases lz
  case false =>
    simp [parseBraceBounds, hTW1, hTW2, hdneg, hE2, List.drop_left]
  case true =>
    simp [parseBraceBounds, hTW1, hTW2, hdneg, hE2, List.drop_left]

/-- **C5** (confirmed).  For `\{` with both bounds present the compiler
emits `{min(n,m),m}` — the minimum is clamped with `Math.min` against the
max while the max digits are reused verbatim — with a trailing `?` for the
lazy `\{-` variant; empty bounds `\{}` and `\{-}` emit `*` and `*?`. -/
theorem C5_brace_clamp :
    (∀ (opts : VimRegExpOptions) (st : PState) (p : ℕ) (lz : Bool)
      (ds1 ds2 rest : List Char),
      MAGIC ≤ st.magic → st.hasAtom = true →
      ds1 ≠ [] → ds2 ≠ [] →
      (∀ c ∈ ds1, c.isDigit = true) → (∀ c ∈ ds2, c.isDigit = true) →
      step opts st ('\\' :: braceL :: ((if lz then ['-'] else []) ++
          (ds1 ++ (',' :: (ds2 ++ (braceR :: rest)))))) p =
        .cont
          (st.push ("\x7b" ++
            Nat.repr (min (decimalVal ds1) (decimalVal ds2)) ++ "," ++
            String.mk ds2 ++ "\x7d" ++ (if lz then "?" else "")))
          rest
          (p + 2 +
            ((if lz then 1 else 0) + ds1.length + 1 + ds2.length + 1))) ∧
    parseVimPattern "x\\{3,2}" defaultOptions =
      .ok ⟨"x\x7b2,2\x7d", "sv"⟩ ∧
    parseVimPattern "x\\{-3,2}" defaultOptions =
      .ok ⟨"x\x7b2,2\x7d?", "sv"⟩ ∧
    parseVimPattern "x\\{2,30}" defaultOptions =
      .ok ⟨"x\x7b2,30\x7d", "sv"⟩ ∧
    parseVimPattern "x\\{}" defaultOptions = .ok ⟨"x*", "sv"⟩ ∧
    parseVimPattern "x\\{-}" defaultOptions = .ok ⟨"x*?", "sv"⟩ := by
  refine ⟨?_, by decide, by decide, by decide, by decide, by decide⟩
  intro opts st p lz ds1 ds2 rest hmag hatom h1 h2 hda hdb
  have hred : step opts st ('\\' :: braceL :: ((if lz then ['-'] else []) ++
      (ds1 ++ (',' :: (ds2 ++ (braceR :: rest)))))) p =
      (if MAGIC ≤ st.magic then
        if st.hasAtom then
          match parseBraceBounds ((if lz then ['-'] else []) ++
              (ds1 ++ (',' :: (ds2 ++ (braceR :: rest))))) with
          | some (b, n, rest') => .cont (st.push (braceEmit b)) rest' (p + 2 + n)
          | none => .err ⟨.invalidKeyword "", p⟩
        else .err ⟨.nothingToRepeat ("\\" ++ String.singleton braceL), p⟩
      else .cont (st.push "\\\x7b")
        ((if lz then ['-'] else []) ++
          (ds1 ++ (',' :: (ds2 ++ (braceR :: rest))))) (p + 2)) := rfl
  rw [hred, if_pos hmag, if_pos hatom,
    parseBraceBounds_full lz ds1 ds2 rest h1 h2 hda hdb]
  rfl

/-- **C5** witness: the clamp rule applied at `x\{3,2}` mid-scan. -/
theorem C5_witness :
    step defaultOptions ⟨MAGIC, false, ["x"], [], none, [0], none⟩
        ('\\' :: braceL :: ['3', ',', '2', braceR]) 1 =
      .cont
        (PState.push ⟨MAGIC, false, ["x"], [], none, [0], none⟩ "\x7b2,2\x7d")
        [] 7 := by
  have h := C5_brace_clamp.1 defaultOptions
    ⟨MAGIC, false, ["x"], [], none, [0], none⟩ 1 false ['3'] ['2'] []
    (by decide) (by decide) (by decide) (by decide) (by decide) (by decide)
  exact h.trans (by decide)

end VimRe
